import Mathlib

/-!
# Verification of the video-dubbing worker core

A shallow embedding, in Lean 4, of the job-processing pipeline of the
video-dubbing repository:

* the SRT subtitle codec (`worker/utils/subtitle_generator.py`),
* the retrying AI client (`worker/services/ai_service.py`),
* the media-toolchain adapter (`worker/utils/ffmpeg_helpers.py`),
* the pipeline orchestrator (`worker/tasks/process_job.py`) together with the
  job-store writes it performs (`dubwizard_shared/services/job_service.py`).

Python strings are modelled as `List Char`, Python floats as exact rationals
(`ℚ`), and the external world (subprocesses, AI providers, S3, the database)
as explicit oracle values threaded through the definitions.  Fallible Python
code is modelled with `Except`/`Option`, keyed by the Python exception class
so that `try`/`except` dispatch can be reproduced faithfully.
-/

namespace Dubbing

/-! ## Python string primitives

Models of the Python `str` builtins used by the worker code: `str.strip`,
`str.split` (with a non-empty separator), decimal rendering (`f"{n}"` /
`f"{n:02d}"` / `f"{n:03d}"`) and `int(str)` parsing.  Strings are `List Char`.
-/

/-- Model of the whitespace class stripped by Python `str.strip()`. -/
def pyIsSpace (c : Char) : Bool :=
  c = ' ' || c = '\t' || c = '\n' || c = '\r' || c = '\x0b' || c = '\x0c'

/-- Model of Python `str.strip()`: drop leading and trailing whitespace. -/
def pyStrip (s : List Char) : List Char :=
  (s.dropWhile pyIsSpace).rdropWhile pyIsSpace

/-- Fuel-indexed worker for `splitOnSub` (structural recursion on the fuel,
so that the kernel can evaluate it; the fuel is immaterial once it bounds
the input length, see `splitOnSubAux_congr`). -/
def splitOnSubAux (sep : List Char) : ℕ → List Char → List (List Char)
  | _, [] => [[]]
  | 0, l => [l]
  | fuel + 1, c :: rest =>
    if sep ≠ [] ∧ sep.isPrefixOf (c :: rest) then
      [] :: splitOnSubAux sep fuel ((c :: rest).drop sep.length)
    else
      match splitOnSubAux sep fuel rest with
      | [] => [[c]]
      | chunk :: more => (c :: chunk) :: more

/-- Model of Python `str.split(sep)` for a non-empty separator `sep`:
split at every (leftmost-first) occurrence of `sep`.  `splitOnSub sep []`
is `[[]]`, matching `"".split(sep) == [""]`. -/
def splitOnSub (sep l : List Char) : List (List Char) :=
  splitOnSubAux sep l.length l

theorem splitOnSubAux_congr (sep : List Char) :
    ∀ f f' : ℕ, ∀ l : List Char, l.length ≤ f → l.length ≤ f' →
      splitOnSubAux sep f l = splitOnSubAux sep f' l := by
  intro f
  induction f with
  | zero =>
    intro f' l hf _
    have : l = [] := List.length_eq_zero.mp (Nat.le_zero.mp hf)
    subst this
    cases f' <;> rfl
  | succ k ih =>
    intro f' l hf hf'
    cases l with
    | nil => cases f' <;> rfl
    | cons c rest =>
      cases f' with
      | zero => simp at hf'
      | succ k' =>
        simp only [splitOnSubAux]
        by_cases hcond : sep ≠ [] ∧ sep.isPrefixOf (c :: rest)
        · rw [if_pos hcond, if_pos hcond]
          have hlen : ((c :: rest).drop sep.length).length ≤ k := by
            have h1 : 1 ≤ sep.length := List.length_pos.mpr hcond.1
            simp only [List.length_drop, List.length_cons] at *
            omega
          have hlen' : ((c :: rest).drop sep.length).length ≤ k' := by
            have h1 : 1 ≤ sep.length := List.length_pos.mpr hcond.1
            simp only [List.length_drop, List.length_cons] at *
            omega
          rw [ih k' _ hlen hlen']
        · rw [if_neg hcond, if_neg hcond]
          have hlen : rest.length ≤ k := by
            simp only [List.length_cons] at hf; omega
          have hlen' : rest.length ≤ k' := by
            simp only [List.length_cons] at hf'; omega
          rw [ih k' _ hlen hlen']

theorem splitOnSub_cons (sep : List Char) (c : Char) (rest : List Char) :
    splitOnSub sep (c :: rest) =
      if sep ≠ [] ∧ sep.isPrefixOf (c :: rest) then
        [] :: splitOnSub sep ((c :: rest).drop sep.length)
      else
        match splitOnSub sep rest with
        | [] => [[c]]
        | chunk :: more => (c :: chunk) :: more := by
  have h1 : splitOnSub sep (c :: rest) = splitOnSubAux sep (rest.length + 1) (c :: rest) := by
    unfold splitOnSub
    rfl
  rw [h1]
  simp only [splitOnSubAux]
  by_cases hcond : sep ≠ [] ∧ sep.isPrefixOf (c :: rest)
  · rw [if_pos hcond, if_pos hcond]
    unfold splitOnSub
    rw [splitOnSubAux_congr sep rest.length ((c :: rest).drop sep.length).length _
      (by simp only [List.length_drop, List.length_cons]
          have hl : 1 ≤ sep.length := List.length_pos.mpr hcond.1
          omega)
      le_rfl]
  · rw [if_neg hcond, if_neg hcond]
    rfl

/-- The decimal digit characters, as produced by Python `str(n)`. -/
def digitOfNat (d : ℕ) : Char :=
  match d with
  | 0 => '0' | 1 => '1' | 2 => '2' | 3 => '3' | 4 => '4'
  | 5 => '5' | 6 => '6' | 7 => '7' | 8 => '8' | _ => '9'

/-- Inverse of `digitOfNat` on the ten digit characters. -/
def digitVal (c : Char) : Option ℕ :=
  if '0' ≤ c ∧ c ≤ '9' then some (c.toNat - '0'.toNat) else none

/-- Fuel-indexed worker for `natToChars` (structural recursion, kernel
evaluable; any fuel above the value works, see `natToCharsAux_congr`). -/
def natToCharsAux : ℕ → ℕ → List Char
  | 0, n => [digitOfNat n]
  | fuel + 1, n =>
    if n < 10 then [digitOfNat n]
    else natToCharsAux fuel (n / 10) ++ [digitOfNat (n % 10)]

/-- Model of Python `str(n)` / `f"{n}"` for a natural number: decimal digits,
most significant first. -/
def natToChars (n : ℕ) : List Char := natToCharsAux n n

theorem natToCharsAux_congr :
    ∀ f f' n : ℕ, n ≤ f → n ≤ f' → natToCharsAux f n = natToCharsAux f' n := by
  intro f
  induction f with
  | zero =>
    intro f' n hf _
    have hn : n = 0 := Nat.le_zero.mp hf
    subst hn
    cases f' with
    | zero => rfl
    | succ k => simp [natToCharsAux]
  | succ k ih =>
    intro f' n hf hf'
    cases f' with
    | zero =>
      have hn : n = 0 := Nat.le_zero.mp hf'
      subst hn
      simp [natToCharsAux]
    | succ k' =>
      simp only [natToCharsAux]
      by_cases h10 : n < 10
      · rw [if_pos h10, if_pos h10]
      · rw [if_neg h10, if_neg h10]
        have hdiv : n / 10 < n := Nat.div_lt_self (by omega) (by omega)
        rw [ih k' (n / 10) (by omega) (by omega)]

theorem natToChars_eq (n : ℕ) :
    natToChars n =
      if n < 10 then [digitOfNat n]
      else natToChars (n / 10) ++ [digitOfNat (n % 10)] := by
  have h1 : natToChars n = natToCharsAux (n + 1) n :=
    natToCharsAux_congr n (n + 1) n le_rfl (by omega)
  rw [h1]
  simp only [natToCharsAux]
  by_cases h10 : n < 10
  · rw [if_pos h10, if_pos h10]
  · rw [if_neg h10, if_neg h10]
    unfold natToChars
    have hdiv : n / 10 < n := Nat.div_lt_self (by omega) (by omega)
    rw [natToCharsAux_congr n (n / 10) (n / 10) (by omega) le_rfl]

/-- One step of decimal accumulation; `none` is absorbing (a non-digit
poisons the whole parse, as Python `int` raises `ValueError`). -/
def digitStep (acc : Option ℕ) (c : Char) : Option ℕ :=
  match acc, digitVal c with
  | some m, some d => some (m * 10 + d)
  | _, _ => none

/-- Value of a digit string (no sign), `none` if empty or non-digit. -/
def digitsVal : List Char → Option ℕ
  | [] => none
  | l => l.foldl digitStep (some 0)

/-- Model of Python `int(s)`: strip whitespace, optional sign, decimal digits;
`none` models the `ValueError` raised on malformed input. -/
def pyInt (s : List Char) : Option ℤ :=
  match pyStrip s with
  | '-' :: rest => (digitsVal rest).map (fun n => -(n : ℤ))
  | '+' :: rest => (digitsVal rest).map (fun n => (n : ℤ))
  | rest => (digitsVal rest).map (fun n => (n : ℤ))

/-- Model of Python `f"{n:02d}"` for `n ≥ 0`. -/
def pad2 (n : ℕ) : List Char :=
  if n < 10 then '0' :: natToChars n else natToChars n

/-- Model of Python `f"{n:03d}"` for `n ≥ 0`. -/
def pad3 (n : ℕ) : List Char :=
  if n < 10 then '0' :: '0' :: natToChars n
  else if n < 100 then '0' :: natToChars n
  else natToChars n

/-! ### Lemmas about the string primitives -/

theorem digitVal_digitOfNat {d : ℕ} (h : d < 10) :
    digitVal (digitOfNat d) = some d := by
  interval_cases d <;> rfl

theorem digitOfNat_not_space {d : ℕ} (h : d < 10) :
    pyIsSpace (digitOfNat d) = false := by
  interval_cases d <;> rfl

theorem digitOfNat_ne {d : ℕ} (c : Char) (h : d < 10) (hc : digitVal c = none) :
    digitOfNat d ≠ c := by
  intro he
  rw [← he, digitVal_digitOfNat h] at hc
  cases hc

/-- Every character of `natToChars n` is a decimal digit. -/
theorem natToChars_digits (n : ℕ) :
    ∀ c ∈ natToChars n, ∃ d, d < 10 ∧ c = digitOfNat d := by
  induction n using Nat.strong_induction_on with
  | _ n ih =>
    intro c hc
    rw [natToChars_eq] at hc
    split at hc
    · next h =>
      simp only [List.mem_singleton] at hc
      exact ⟨n, h, hc⟩
    · next h =>
      rcases List.mem_append.mp hc with h1 | h2
      · exact ih (n / 10) (Nat.div_lt_self (by omega) (by omega)) c h1
      · simp only [List.mem_singleton] at h2
        exact ⟨n % 10, Nat.mod_lt _ (by omega), h2⟩

theorem natToChars_ne_nil (n : ℕ) : natToChars n ≠ [] := by
  rw [natToChars_eq]
  split <;> simp

/-- `digitsVal` unfolded as a fold from an arbitrary accumulator. -/
def digitsFold (acc : ℕ) (l : List Char) : Option ℕ :=
  l.foldl digitStep (some acc)

theorem foldl_digitStep_none (l : List Char) :
    l.foldl digitStep none = none := by
  induction l with
  | nil => rfl
  | cons x xs ihx => simpa [digitStep] using ihx

theorem digitsFold_append (acc : ℕ) (a b : List Char) :
    digitsFold acc (a ++ b) =
      match digitsFold acc a with
      | some m => digitsFold m b
      | none => none := by
  unfold digitsFold
  rw [List.foldl_append]
  cases h : List.foldl digitStep (some acc) a with
  | none => simp [foldl_digitStep_none]
  | some m => rfl

theorem digitsFold_cons (acc : ℕ) (c : Char) (l : List Char) :
    digitsFold acc (c :: l) =
      match digitVal c with
      | some d => digitsFold (acc * 10 + d) l
      | none => none := by
  cases hc : digitVal c with
  | none => simp [digitsFold, digitStep, hc, foldl_digitStep_none]
  | some d => simp [digitsFold, digitStep, hc]

theorem digitsVal_eq_digitsFold (l : List Char) (h : l ≠ []) :
    digitsVal l = digitsFold 0 l := by
  cases l with
  | nil => exact absurd rfl h
  | cons c rest => rfl

/-- Folding the digits of `n` onto accumulator `acc` yields `acc * 10^k + n`.
Stated in the form needed below. -/
theorem digitsFold_natToChars (acc n : ℕ) :
    ∃ k : ℕ, digitsFold acc (natToChars n) = some (acc * 10 ^ k + n) ∧ 0 < k := by
  induction n using Nat.strong_induction_on generalizing acc with
  | _ n ih =>
    rw [natToChars_eq]
    split
    · next h =>
      refine ⟨1, ?_, one_pos⟩
      simp [digitsFold, digitStep, digitVal_digitOfNat h]
    · next h =>
      obtain ⟨k, hk, hkpos⟩ := ih (n / 10) (Nat.div_lt_self (by omega) (by omega)) acc
      rw [digitsFold_append, hk]
      refine ⟨k + 1, ?_, by omega⟩
      simp only [digitsFold, List.foldl_cons, List.foldl_nil, digitStep,
        digitVal_digitOfNat (Nat.mod_lt n (show 0 < 10 by omega))]
      congr 1
      rw [pow_succ, ← mul_assoc]
      omega

theorem digitsVal_natToChars (n : ℕ) : digitsVal (natToChars n) = some n := by
  rw [digitsVal_eq_digitsFold _ (natToChars_ne_nil n)]
  obtain ⟨k, hk, -⟩ := digitsFold_natToChars 0 n
  simpa using hk

theorem pyStrip_of_not_space (l : List Char)
    (hall : ∀ c ∈ l, pyIsSpace c = false) : pyStrip l = l := by
  have h1 : l.dropWhile pyIsSpace = l :=
    List.dropWhile_eq_self_iff.mpr
      (fun hl => by simp [hall _ (List.getElem_mem hl)])
  have h2 : l.rdropWhile pyIsSpace = l :=
    List.rdropWhile_eq_self_iff.mpr (fun hl => by simp [hall _ (List.getLast_mem hl)])
  rw [pyStrip, h1, h2]

theorem pyStrip_of_digits (l : List Char)
    (h : ∀ c ∈ l, ∃ d, d < 10 ∧ c = digitOfNat d) : pyStrip l = l := by
  refine pyStrip_of_not_space l (fun c hc => ?_)
  obtain ⟨d, hd, rfl⟩ := h c hc
  exact digitOfNat_not_space hd

theorem pyInt_natToChars (n : ℕ) : pyInt (natToChars n) = some (n : ℤ) := by
  unfold pyInt
  rw [pyStrip_of_digits _ (natToChars_digits n)]
  have hne : natToChars n ≠ [] := natToChars_ne_nil n
  have hdig := natToChars_digits n
  cases hl : natToChars n with
  | nil => exact absurd hl hne
  | cons c rest =>
    have hc : ∃ d, d < 10 ∧ c = digitOfNat d := by
      apply hdig; rw [hl]; simp
    obtain ⟨d, hd, rfl⟩ := hc
    have hneq1 : digitOfNat d ≠ '-' := digitOfNat_ne '-' hd rfl
    have hneq2 : digitOfNat d ≠ '+' := digitOfNat_ne '+' hd rfl
    have hv : digitsVal (digitOfNat d :: rest) = some n := by
      rw [← hl]; exact digitsVal_natToChars n
    cases hdd : digitOfNat d <;> simp_all [pyInt]

/-! ### Splitting theory

Python's `str.split(sep)` with a non-empty separator is a left-to-right
greedy scan.  The lemmas below recover the chunks of a `sep`-join, under the
occurrence-freeness conditions that make the scan unambiguous.
-/

/-- Model of Python `sep.join(chunks)` (specialised to `List Char`). -/
def joinSep (sep : List Char) : List (List Char) → List Char
  | [] => []
  | [x] => x
  | x :: xs => x ++ sep ++ joinSep sep xs

theorem joinSep_nil (sep : List Char) : joinSep sep [] = [] := rfl

theorem joinSep_singleton (sep x : List Char) : joinSep sep [x] = x := rfl

theorem joinSep_cons₂ (sep x y : List Char) (xs : List (List Char)) :
    joinSep sep (x :: y :: xs) = x ++ sep ++ joinSep sep (y :: xs) := rfl

theorem joinSep_cons_cons (sep : List Char) (c : Char) (x : List Char)
    (xs : List (List Char)) :
    joinSep sep ((c :: x) :: xs) = c :: joinSep sep (x :: xs) := by
  cases xs <;> rfl

/-- `sep` occurs nowhere in `l`. -/
def sepFree (sep l : List Char) : Prop := ∀ t, t <:+ l → ¬ sep <+: t

/-- No occurrence of `sep` starts strictly inside `chunk` when `chunk` is
immediately followed by `sep`. -/
def boundaryFree (sep chunk : List Char) : Prop :=
  ∀ t, t <:+ chunk → t ≠ [] → ¬ sep <+: (t ++ sep)

theorem sepFree_of_cons {sep : List Char} {c : Char} {l : List Char}
    (h : sepFree sep (c :: l)) : sepFree sep l :=
  fun t ht => h t (ht.trans (List.suffix_cons c l))

theorem boundaryFree_of_cons {sep : List Char} {c : Char} {l : List Char}
    (h : boundaryFree sep (c :: l)) : boundaryFree sep l :=
  fun t ht => h t (ht.trans (List.suffix_cons c l))

theorem prefix_append_truncate {sep x rest : List Char}
    (h : sep <+: x ++ rest) (hlen : sep.length ≤ x.length) : sep <+: x := by
  have h2 : sep = (x ++ rest).take sep.length := List.prefix_iff_eq_take.mp h
  rw [List.take_append_of_le_length hlen] at h2
  rw [h2]
  exact List.take_prefix _ _

theorem splitOnSub_nil (sep : List Char) : splitOnSub sep [] = [[]] := rfl

theorem splitOnSub_ne_nil (sep l : List Char) : splitOnSub sep l ≠ [] := by
  cases l with
  | nil => rw [splitOnSub_nil]; simp
  | cons c rest =>
    rw [splitOnSub_cons]
    split
    · simp
    · split <;> simp

/-- A separator-free string is returned whole by the split. -/
theorem splitOnSub_of_sepFree {sep : List Char} (hsep : sep ≠ []) :
    ∀ l : List Char, sepFree sep l → splitOnSub sep l = [l] := by
  intro l
  induction l with
  | nil => intro _; exact splitOnSub_nil sep
  | cons c rest ih =>
    intro hfree
    rw [splitOnSub_cons]
    have hnp : ¬ sep.isPrefixOf (c :: rest) := by
      intro hp
      exact hfree (c :: rest) List.suffix_rfl (List.isPrefixOf_iff_prefix.mp hp)
    rw [if_neg (fun hcon => hnp hcon.2)]
    rw [ih (sepFree_of_cons hfree)]

/-- Splitting `chunk ++ sep ++ rest` peels off `chunk` when no occurrence of
`sep` starts inside `chunk`. -/
theorem splitOnSub_append {sep : List Char} (hsep : sep ≠ []) :
    ∀ chunk rest : List Char, boundaryFree sep chunk →
      splitOnSub sep (chunk ++ sep ++ rest) = chunk :: splitOnSub sep rest := by
  intro chunk
  induction chunk with
  | nil =>
    intro rest _
    simp only [List.nil_append]
    cases sep with
    | nil => exact absurd rfl hsep
    | cons s0 sep' =>
      rw [List.cons_append, splitOnSub_cons]
      have hpref : (s0 :: sep').isPrefixOf (s0 :: (sep' ++ rest)) := by
        rw [← List.cons_append]
        exact List.isPrefixOf_iff_prefix.mpr (List.prefix_append _ rest)
      rw [if_pos ⟨hsep, hpref⟩]
      have hdrop : (s0 :: (sep' ++ rest)).drop (s0 :: sep').length = rest := by
        rw [← List.cons_append, List.drop_left]
      rw [hdrop]
  | cons c chunk' ih =>
    intro rest hbf
    have hstep : (c :: chunk') ++ sep ++ rest = c :: (chunk' ++ sep ++ rest) := by
      simp
    rw [hstep, splitOnSub_cons]
    have hnp : ¬ sep.isPrefixOf (c :: (chunk' ++ sep ++ rest)) := by
      intro hp
      have hp' := List.isPrefixOf_iff_prefix.mp hp
      have hassoc : c :: (chunk' ++ sep ++ rest) = ((c :: chunk') ++ sep) ++ rest := by
        simp
      rw [hassoc] at hp'
      have htrunc : sep <+: (c :: chunk') ++ sep :=
        prefix_append_truncate hp'
          (by simp only [List.length_append, List.length_cons]; omega)
      exact hbf (c :: chunk') List.suffix_rfl (by simp) htrunc
    rw [if_neg (fun hcon => hnp hcon.2)]
    rw [ih rest (boundaryFree_of_cons hbf)]

/-- Joining the chunks of a split recovers the original string
(the unconditional split/join identity; Python `sep.join(s.split(sep)) == s`). -/
theorem joinSep_splitOnSub {sep : List Char} (hsep : sep ≠ []) :
    ∀ l : List Char, joinSep sep (splitOnSub sep l) = l := by
  have main : ∀ n : ℕ, ∀ l : List Char, l.length = n →
      joinSep sep (splitOnSub sep l) = l := by
    intro n
    induction n using Nat.strong_induction_on with
    | _ n ih =>
      intro l hl
      cases l with
      | nil => rw [splitOnSub_nil]; rfl
      | cons c rest =>
        rw [splitOnSub_cons]
        by_cases hp : sep.isPrefixOf (c :: rest)
        · rw [if_pos ⟨hsep, hp⟩]
          have hpre := List.isPrefixOf_iff_prefix.mp hp
          obtain ⟨tail, htail⟩ := hpre
          have hdrop : (c :: rest).drop sep.length = tail := by
            rw [← htail, List.drop_left]
          rw [hdrop]
          have hlen : tail.length < n := by
            have h1 : 1 ≤ sep.length := List.length_pos.mpr hsep
            have h2 : (sep ++ tail).length = (c :: rest).length := by rw [htail]
            simp only [List.length_append] at h2
            omega
          have hjoin := ih tail.length hlen tail rfl
          cases hsplit : splitOnSub sep tail with
          | nil => exact absurd hsplit (splitOnSub_ne_nil sep tail)
          | cons x xs =>
            rw [hsplit] at hjoin
            rw [joinSep_cons₂, List.nil_append, hjoin, htail]
        · rw [if_neg (fun hcon => hp hcon.2)]
          have hlen : rest.length < n := by
            subst hl; simp
          have hjoin := ih rest.length hlen rest rfl
          cases hsplit : splitOnSub sep rest with
          | nil => exact absurd hsplit (splitOnSub_ne_nil sep rest)
          | cons x xs =>
            rw [hsplit] at hjoin
            rw [joinSep_cons_cons, hjoin]
  exact fun l => main l.length l rfl

theorem sepFree_iff_not_contains (sep l : List Char) :
    sepFree sep l ↔ ¬ sep <:+: l := by
  rw [List.infix_iff_prefix_suffix]
  constructor
  · rintro h ⟨t, hpre, hsuf⟩
    exact h t hsuf hpre
  · intro h t hsuf hpre
    exact h ⟨t, hpre, hsuf⟩

theorem sepFree_head_not_mem {s0 : Char} {sep' l : List Char}
    (h : s0 ∉ l) : sepFree (s0 :: sep') l := by
  intro t hsuf hpre
  cases t with
  | nil => simp at hpre
  | cons t0 t' =>
    rw [List.cons_prefix_cons] at hpre
    exact h (hsuf.subset (by simp [hpre.1]))

theorem boundaryFree_head_not_mem {s0 : Char} {sep' chunk : List Char}
    (h : s0 ∉ chunk) : boundaryFree (s0 :: sep') chunk := by
  intro t hsuf htne hpre
  cases t with
  | nil => exact htne rfl
  | cons t0 t' =>
    rw [List.cons_append, List.cons_prefix_cons] at hpre
    exact h (hsuf.subset (by simp [hpre.1]))

theorem splitOnSub_single_of_not_mem {c : Char} {l : List Char} (h : c ∉ l) :
    splitOnSub [c] l = [l] :=
  splitOnSub_of_sepFree (by simp) l (sepFree_head_not_mem h)

theorem splitOnSub_single_append {c : Char} {a : List Char} (b : List Char)
    (h : c ∉ a) : splitOnSub [c] (a ++ c :: b) = a :: splitOnSub [c] b := by
  have h2 : a ++ c :: b = a ++ [c] ++ b := by simp
  rw [h2, splitOnSub_append (by simp) a b (boundaryFree_head_not_mem h)]

/-- `boundaryFree` for the blank-line separator `"\n\n"`: no occurrence
starts inside a chunk that has no two consecutive newlines and does not end
with a newline. -/
theorem boundaryFree_doubleNewline {chunk : List Char}
    (h1 : ¬ ['\n', '\n'] <:+: chunk) (h2 : chunk.getLast? ≠ some '\n') :
    boundaryFree ['\n', '\n'] chunk := by
  intro t hsuf htne hpre
  cases t with
  | nil => exact htne rfl
  | cons t0 t' =>
    rw [List.cons_append, List.cons_prefix_cons] at hpre
    obtain ⟨ht0, hrest⟩ := hpre
    cases t' with
    | nil =>
      -- the chunk ends with `t0 = '\n'`
      obtain ⟨pre, hpre'⟩ := hsuf
      apply h2
      rw [← hpre', ht0, List.getLast?_concat]
    | cons t1 t'' =>
      rw [List.cons_append, List.cons_prefix_cons] at hrest
      obtain ⟨ht1, -⟩ := hrest
      apply h1
      rw [List.infix_iff_prefix_suffix]
      exact ⟨t0 :: t1 :: t'', by rw [← ht0, ← ht1]; simp, hsuf⟩

/-! ## The subtitle timestamp codec

`worker/utils/subtitle_generator.py`, `format_srt_time` and `parse_srt_time`.
Python float arithmetic is modelled by exact rationals; `x % y` on
non-negative floats is `x - y * ⌊x / y⌋`, and `int(x)` on a non-negative
float is `⌊x⌋`.
-/

/-- Model of Python `a % b` for rationals, `b > 0`. -/
def pyModQ (a b : ℚ) : ℚ := a - b * ⌊a / b⌋

/-- The negative-input clamp at the top of `format_srt_time`. -/
def srtClamp (seconds : ℚ) : ℚ := if seconds < 0 then 0 else seconds

/-- `hours = int(seconds // 3600)`. -/
def srtHours (s : ℚ) : ℕ := (⌊s / 3600⌋).toNat

/-- `minutes = int((seconds % 3600) // 60)`. -/
def srtMinutes (s : ℚ) : ℕ := (⌊pyModQ s 3600 / 60⌋).toNat

/-- `secs = int(seconds % 60)`. -/
def srtSecs (s : ℚ) : ℕ := (⌊pyModQ s 60⌋).toNat

/-- `millis = int((seconds % 1) * 1000)`. -/
def srtMillis (s : ℚ) : ℕ := (⌊pyModQ s 1 * 1000⌋).toNat

/-- `format_srt_time`: convert seconds to `HH:MM:SS,mmm`
(negative inputs clamp to zero, milliseconds truncate). -/
def format_srt_time (seconds : ℚ) : List Char :=
  pad2 (srtHours (srtClamp seconds)) ++ ':' :: pad2 (srtMinutes (srtClamp seconds))
    ++ ':' :: pad2 (srtSecs (srtClamp seconds)) ++ ',' :: pad3 (srtMillis (srtClamp seconds))

/-- `parse_srt_time`: parse `HH:MM:SS,mmm` back to seconds; `none` models the
`ValueError` raised on malformed input (wrong comma/colon structure or
non-integer fields). -/
def parse_srt_time (timestamp : List Char) : Option ℚ :=
  match splitOnSub [','] timestamp with
  | [timePart, millisPart] =>
    match splitOnSub [':'] timePart with
    | [hh, mm, ss] =>
      match pyInt hh, pyInt mm, pyInt ss, pyInt millisPart with
      | some h, some m, some s, some ms =>
        some ((h : ℚ) * 3600 + (m : ℚ) * 60 + (s : ℚ) + (ms : ℚ) / 1000)
      | _, _, _, _ => none
    | _ => none
  | _ => none

/-! ### Arithmetic facts about the clock decomposition -/

theorem pyModQ_nonneg (a : ℚ) {b : ℚ} (hb : 0 < b) : 0 ≤ pyModQ a b := by
  unfold pyModQ
  have h1 : (⌊a / b⌋ : ℚ) ≤ a / b := Int.floor_le _
  have h2 : b * (⌊a / b⌋ : ℚ) ≤ b * (a / b) := by
    exact mul_le_mul_of_nonneg_left h1 (le_of_lt hb)
  rw [mul_div_cancel₀ a (ne_of_gt hb)] at h2
  linarith

theorem pyModQ_lt (a : ℚ) {b : ℚ} (hb : 0 < b) : pyModQ a b < b := by
  unfold pyModQ
  have h1 : a / b - 1 < (⌊a / b⌋ : ℚ) := Int.sub_one_lt_floor _
  have h2 : b * (a / b - 1) < b * (⌊a / b⌋ : ℚ) :=
    mul_lt_mul_of_pos_left h1 hb
  rw [mul_sub, mul_one, mul_div_cancel₀ a (ne_of_gt hb)] at h2
  linarith

theorem pyModQ_one (a : ℚ) : pyModQ a 1 = a - (⌊a⌋ : ℚ) := by
  unfold pyModQ
  rw [div_one]
  ring

/-- Taking `% b` and then `% c` equals `% c` directly when `c` divides `b`. -/
theorem pyModQ_pyModQ (a : ℚ) (k : ℤ) {c : ℚ} (hc : c ≠ 0) :
    pyModQ (pyModQ a ((k : ℚ) * c)) c = pyModQ a c := by
  unfold pyModQ
  have hdiv : (a - (k : ℚ) * c * ⌊a / ((k : ℚ) * c)⌋) / c
      = a / c - (k * ⌊a / ((k : ℚ) * c)⌋ : ℤ) := by
    push_cast
    field_simp
    ring
  rw [hdiv, Int.floor_sub_int]
  push_cast
  ring

theorem floor_nonneg_of_nonneg {x : ℚ} (hx : 0 ≤ x) : 0 ≤ ⌊x⌋ :=
  Int.le_floor.mpr (by exact_mod_cast hx)

/-- The clock decomposition recombines to the millisecond-truncated input. -/
theorem clock_recombine (q : ℚ) (hq : 0 ≤ q) :
    ((⌊q / 3600⌋ : ℚ)) * 3600 + ((⌊pyModQ q 3600 / 60⌋ : ℚ)) * 60 +
      ((⌊pyModQ q 60⌋ : ℚ)) + ((⌊pyModQ q 1 * 1000⌋ : ℚ)) / 1000
      = (⌊q * 1000⌋ : ℚ) / 1000 := by
  have h3600 : pyModQ q 3600 = q - 3600 * ⌊q / 3600⌋ := rfl
  have hmod60 : pyModQ (pyModQ q 3600) 60 = pyModQ q 60 := by
    have := @pyModQ_pyModQ q 60 (60 : ℚ) (by norm_num)
    norm_num at this ⊢
    exact this
  have hmod1 : pyModQ (pyModQ q 60) 1 = pyModQ q 1 := by
    have := @pyModQ_pyModQ q 60 (1 : ℚ) (by norm_num)
    norm_num at this ⊢
    exact this
  -- seconds-level identities
  have e1 : (⌊q / 3600⌋ : ℚ) * 3600 + pyModQ q 3600 = q := by
    rw [h3600]; ring
  have e2 : (⌊pyModQ q 3600 / 60⌋ : ℚ) * 60 + pyModQ q 60 = pyModQ q 3600 := by
    have : pyModQ (pyModQ q 3600) 60
        = pyModQ q 3600 - 60 * ⌊pyModQ q 3600 / 60⌋ := rfl
    rw [← hmod60, this]; ring
  have e3 : (⌊pyModQ q 60⌋ : ℚ) + pyModQ q 1 = pyModQ q 60 := by
    rw [← hmod1, pyModQ_one (pyModQ q 60)]
    ring
  have e4 : (⌊pyModQ q 1 * 1000⌋ : ℚ) = (⌊q * 1000⌋ : ℚ) - 1000 * (⌊q⌋ : ℚ) := by
    have hval : pyModQ q 1 * 1000 = q * 1000 - ((1000 * ⌊q⌋ : ℤ) : ℚ) := by
      rw [pyModQ_one]; push_cast; ring
    rw [hval, Int.floor_sub_int]
    push_cast
    ring
  have e5 : (⌊q⌋ : ℚ) = q - pyModQ q 1 := by
    rw [pyModQ_one]; ring
  rw [e4]
  have lhs_eq : (⌊q / 3600⌋ : ℚ) * 3600 + (⌊pyModQ q 3600 / 60⌋ : ℚ) * 60 +
      (⌊pyModQ q 60⌋ : ℚ) = (⌊q⌋ : ℚ) := by
    have := e1
    have := e2
    have := e3
    have := e5
    linarith
  rw [lhs_eq]
  field_simp
  ring

/-! ### Parsing the rendered timestamp -/

theorem pad2_digits (n : ℕ) :
    ∀ c ∈ pad2 n, ∃ d, d < 10 ∧ c = digitOfNat d := by
  intro c hc
  unfold pad2 at hc
  split at hc
  · rw [List.mem_cons] at hc
    rcases hc with h0 | hrest
    · exact ⟨0, by omega, h0⟩
    · exact natToChars_digits n c hrest
  · exact natToChars_digits n c hc

theorem pad3_digits (n : ℕ) :
    ∀ c ∈ pad3 n, ∃ d, d < 10 ∧ c = digitOfNat d := by
  intro c hc
  unfold pad3 at hc
  split at hc
  · rw [List.mem_cons, List.mem_cons] at hc
    rcases hc with h0 | h0 | hrest
    · exact ⟨0, by omega, h0⟩
    · exact ⟨0, by omega, h0⟩
    · exact natToChars_digits n c hrest
  · split at hc
    · rw [List.mem_cons] at hc
      rcases hc with h0 | hrest
      · exact ⟨0, by omega, h0⟩
      · exact natToChars_digits n c hrest
    · exact natToChars_digits n c hc

theorem digitsVal_cons_zero (l : List Char) (h : l ≠ []) :
    digitsVal ('0' :: l) = digitsVal l := by
  rw [digitsVal_eq_digitsFold _ (by simp), digitsVal_eq_digitsFold _ h,
    digitsFold_cons]
  rfl

theorem pyInt_digits (l : List Char)
    (h : ∀ c ∈ l, ∃ d, d < 10 ∧ c = digitOfNat d) (hne : l ≠ []) :
    pyInt l = (digitsVal l).map (fun n => (n : ℤ)) := by
  unfold pyInt
  rw [pyStrip_of_digits l h]
  cases l with
  | nil => exact absurd rfl hne
  | cons c rest =>
    obtain ⟨d, hd, rfl⟩ := h c (by simp)
    have hneq1 : digitOfNat d ≠ '-' := digitOfNat_ne '-' hd rfl
    have hneq2 : digitOfNat d ≠ '+' := digitOfNat_ne '+' hd rfl
    cases hdd : digitOfNat d <;> simp_all

theorem pyInt_pad2 (n : ℕ) : pyInt (pad2 n) = some (n : ℤ) := by
  have hdig := pad2_digits n
  have hne : pad2 n ≠ [] := by
    unfold pad2; split
    · simp
    · exact natToChars_ne_nil n
  rw [pyInt_digits _ hdig hne]
  unfold pad2
  split
  · rw [digitsVal_cons_zero _ (natToChars_ne_nil n), digitsVal_natToChars]
    rfl
  · rw [digitsVal_natToChars]
    rfl

theorem pyInt_pad3 (n : ℕ) : pyInt (pad3 n) = some (n : ℤ) := by
  have hdig := pad3_digits n
  have hne : pad3 n ≠ [] := by
    unfold pad3; split
    · simp
    · split
      · simp
      · exact natToChars_ne_nil n
  rw [pyInt_digits _ hdig hne]
  unfold pad3
  split
  · rw [digitsVal_cons_zero _ (by simp),
      digitsVal_cons_zero _ (natToChars_ne_nil n), digitsVal_natToChars]
    rfl
  · split
    · rw [digitsVal_cons_zero _ (natToChars_ne_nil n), digitsVal_natToChars]
      rfl
    · rw [digitsVal_natToChars]
      rfl

theorem comma_not_digit {c : Char} (h : ∃ d, d < 10 ∧ c = digitOfNat d) :
    c ≠ ',' := by
  obtain ⟨d, hd, rfl⟩ := h
  exact digitOfNat_ne ',' hd rfl

theorem colon_not_digit {c : Char} (h : ∃ d, d < 10 ∧ c = digitOfNat d) :
    c ≠ ':' := by
  obtain ⟨d, hd, rfl⟩ := h
  exact digitOfNat_ne ':' hd rfl

/-- Parsing a rendered timestamp recovers the millisecond truncation of the
input: the codec round-trips exactly on whole-millisecond times and to
within one millisecond in general. -/
theorem parse_format_srt_time (q : ℚ) (hq : 0 ≤ q) :
    parse_srt_time (format_srt_time q) = some ((⌊q * 1000⌋ : ℚ) / 1000) := by
  have hclamp : srtClamp q = q := if_neg (not_lt.mpr hq)
  have hH0 : (0 : ℤ) ≤ ⌊q / 3600⌋ :=
    floor_nonneg_of_nonneg (div_nonneg hq (by norm_num))
  have hM0 : (0 : ℤ) ≤ ⌊pyModQ q 3600 / 60⌋ :=
    floor_nonneg_of_nonneg (div_nonneg (pyModQ_nonneg q (by norm_num)) (by norm_num))
  have hS0 : (0 : ℤ) ≤ ⌊pyModQ q 60⌋ :=
    floor_nonneg_of_nonneg (pyModQ_nonneg q (by norm_num))
  have hMS0 : (0 : ℤ) ≤ ⌊pyModQ q 1 * 1000⌋ :=
    floor_nonneg_of_nonneg (mul_nonneg (pyModQ_nonneg q (by norm_num)) (by norm_num))
  have hfmt : format_srt_time q
      = (pad2 (srtHours q) ++ ':' :: (pad2 (srtMinutes q) ++ ':' :: pad2 (srtSecs q)))
        ++ ',' :: pad3 (srtMillis q) := by
    unfold format_srt_time
    rw [hclamp]
    simp only [List.append_assoc, List.cons_append]
  have hc1 : ',' ∉ pad2 (srtHours q) ++ ':' :: (pad2 (srtMinutes q) ++ ':' :: pad2 (srtSecs q)) := by
    intro hmem
    simp only [List.mem_append, List.mem_cons] at hmem
    rcases hmem with h1 | h1 | h1 | h1 | h1
    · exact comma_not_digit (pad2_digits _ _ h1) rfl
    · exact absurd h1 (by decide)
    · exact comma_not_digit (pad2_digits _ _ h1) rfl
    · exact absurd h1 (by decide)
    · exact comma_not_digit (pad2_digits _ _ h1) rfl
  have hc2 : ',' ∉ pad3 (srtMillis q) :=
    fun hmem => comma_not_digit (pad3_digits _ _ hmem) rfl
  have hcol2 : (':' : Char) ∉ pad2 (srtHours q) :=
    fun hmem => colon_not_digit (pad2_digits _ _ hmem) rfl
  have hcol3 : (':' : Char) ∉ pad2 (srtMinutes q) :=
    fun hmem => colon_not_digit (pad2_digits _ _ hmem) rfl
  have hcol4 : (':' : Char) ∉ pad2 (srtSecs q) :=
    fun hmem => colon_not_digit (pad2_digits _ _ hmem) rfl
  unfold parse_srt_time
  rw [hfmt, splitOnSub_single_append _ hc1, splitOnSub_single_of_not_mem hc2]
  dsimp only
  rw [splitOnSub_single_append _ hcol2]
  rw [splitOnSub_single_append _ hcol3]
  rw [splitOnSub_single_of_not_mem hcol4]
  dsimp only
  rw [pyInt_pad2 (srtHours q), pyInt_pad2 (srtMinutes q), pyInt_pad2 (srtSecs q),
    pyInt_pad3 (srtMillis q)]
  dsimp only
  have castH : ((srtHours q : ℤ) : ℚ) = (⌊q / 3600⌋ : ℚ) := by
    unfold srtHours
    rw [Int.toNat_of_nonneg hH0]
  have castM : ((srtMinutes q : ℤ) : ℚ) = (⌊pyModQ q 3600 / 60⌋ : ℚ) := by
    unfold srtMinutes
    rw [Int.toNat_of_nonneg hM0]
  have castS : ((srtSecs q : ℤ) : ℚ) = (⌊pyModQ q 60⌋ : ℚ) := by
    unfold srtSecs
    rw [Int.toNat_of_nonneg hS0]
  have castMS : ((srtMillis q : ℤ) : ℚ) = (⌊pyModQ q 1 * 1000⌋ : ℚ) := by
    unfold srtMillis
    rw [Int.toNat_of_nonneg hMS0]
  simp only [castH, castM, castS, castMS]
  rw [clock_recombine q hq]


unseal Rat.mul Rat.inv Rat.add Rat.sub in
/-- The docstring example of `format_srt_time`, on the exact rational
`3661.123`. -/
theorem c4_example_format :
    format_srt_time ((3661123 : ℚ) / 1000) = "01:01:01,123".toList := by decide

unseal Rat.mul Rat.inv Rat.add Rat.sub in
/-- The reverse parse of the docstring example. -/
theorem c4_example_parse :
    parse_srt_time ("01:01:01,123".toList) = some ((3661123 : ℚ) / 1000) := by
  decide

/-- **C4.** For every valid (non-negative) time `t` in seconds,
`parse_srt_time (format_srt_time t)` is within 1 millisecond of `t`
(the parsed value is the millisecond truncation, so `0 ≤ t - v < 1/1000`);
in particular `format_srt_time 3661.123 = "01:01:01,123"` and parsing that
string back returns `3661.123`. -/
theorem c4_srt_time_roundtrip :
    (∀ q : ℚ, 0 ≤ q → ∃ v : ℚ, parse_srt_time (format_srt_time q) = some v ∧
        0 ≤ q - v ∧ q - v < 1 / 1000) ∧
    format_srt_time ((3661123 : ℚ) / 1000) = "01:01:01,123".toList ∧
    parse_srt_time ("01:01:01,123".toList) = some ((3661123 : ℚ) / 1000) := by
  refine ⟨fun q hq => ⟨(⌊q * 1000⌋ : ℚ) / 1000, parse_format_srt_time q hq, ?_, ?_⟩,
    ?_, ?_⟩
  · have h1 : (⌊q * 1000⌋ : ℚ) ≤ q * 1000 := Int.floor_le _
    linarith
  · have h2 : q * 1000 - 1 < (⌊q * 1000⌋ : ℚ) := Int.sub_one_lt_floor _
    linarith
  · exact c4_example_format
  · exact c4_example_parse

/-- **C4** witness at `t = 5/2`: the round trip is exact there. -/
theorem c4_srt_time_roundtrip_witness :
    ∃ v : ℚ, parse_srt_time (format_srt_time ((5 : ℚ) / 2)) = some v ∧
      0 ≤ (5 : ℚ) / 2 - v ∧ (5 : ℚ) / 2 - v < 1 / 1000 :=
  c4_srt_time_roundtrip.1 ((5 : ℚ) / 2) (by norm_num)

/-! ## Segment data model

`dubwizard_shared/models/segments.py` (and its re-export in
`worker/models/segments.py`).  The dataclasses perform no validation: any
combination of fields can be constructed.
-/

/-- `TranscriptionSegment` dataclass. -/
structure TranscriptionSegment where
  id : ℤ
  start : ℚ
  «end» : ℚ
  text : List Char
deriving DecidableEq

/-- `TranslationSegment` dataclass. -/
structure TranslationSegment where
  id : ℤ
  start : ℚ
  «end» : ℚ
  original_text : List Char
  translated_text : List Char
  source_language : List Char
  target_language : List Char
deriving DecidableEq

/-- `SynthesizedSegment` dataclass. -/
structure SynthesizedSegment where
  id : ℤ
  start : ℚ
  «end» : ℚ
  text : List Char
  audio_path : List Char
  actual_duration : ℚ
deriving DecidableEq

/-- The `Union[TranscriptionSegment, TranslationSegment]` argument type of
`generate_srt`. -/
inductive SrtSegment
  | transcription (s : TranscriptionSegment)
  | translation (s : TranslationSegment)
deriving DecidableEq

def SrtSegment.start : SrtSegment → ℚ
  | .transcription s => s.start
  | .translation s => s.start

def SrtSegment.stop : SrtSegment → ℚ
  | .transcription s => s.«end»
  | .translation s => s.«end»

/-- The `isinstance`-based text selection in `generate_srt` (translation
segments yield `translated_text` or `original_text` depending on
`use_translated`; transcription segments always yield `text`). -/
def srtText (seg : SrtSegment) (use_translated : Bool) : List Char :=
  match seg with
  | .translation s => if use_translated then s.translated_text else s.original_text
  | .transcription s => s.text

/-- The parse loop of `AIService.transcribe_audio`: one `TranscriptionSegment`
per provider segment, `id = i + 1` by enumeration order, `text` stripped,
`start`/`end` taken verbatim (no validation). -/
def parseTranscription (raw : List (ℚ × ℚ × List Char)) : List TranscriptionSegment :=
  raw.enum.map (fun p => ⟨(p.1 : ℤ) + 1, p.2.1, p.2.2.1, pyStrip p.2.2.2⟩)

/-! ## The SRT codec

`generate_srt`, `parse_srt` and `validate_srt` from
`worker/utils/subtitle_generator.py`.  Error values carry the exception
message; where Python interpolates a float into a message the model renders
the exact rational instead (float `repr` is not modelled — no claim depends
on those message fragments).
-/

/-- Decimal rendering of an integer (Python `f"{z}"`). -/
def intToChars (z : ℤ) : List Char :=
  if z < 0 then '-' :: natToChars z.natAbs else natToChars z.toNat

/-- Rendering of a rational for error-message interpolation (stand-in for
Python float `repr`). -/
def ratToChars (q : ℚ) : List Char :=
  if q.den = 1 then intToChars q.num
  else intToChars q.num ++ '/' :: natToChars q.den

/-- The in-place swap `seg.start, seg.end = seg.end, seg.start` applied by
`generate_srt` when a segment has `end < start` (after the non-negativity
check): the emitted (start, end) pair. -/
def srtNormalizeTimes (s e : ℚ) : ℚ × ℚ :=
  if e < s then (e, s) else (s, e)

/-- The entry-building loop of `generate_srt`: `i` is the 1-based position
in the input list; empty-text segments are skipped (their index is still
consumed); invalid timing raises `SubtitleError`. -/
def genEntries (use_translated : Bool) : ℕ → List SrtSegment → Except (List Char) (List (List Char))
  | _, [] => Except.ok []
  | i, seg :: rest =>
    if seg.start < 0 ∨ seg.stop < 0 then
      Except.error ("Invalid segment timing: start=".toList ++ ratToChars seg.start
        ++ ", end=".toList ++ ratToChars seg.stop)
    else
      match genEntries use_translated (i + 1) rest with
      | Except.error msg => Except.error msg
      | Except.ok entries =>
        if pyStrip (srtText seg use_translated) = [] then Except.ok entries
        else Except.ok ((natToChars i
            ++ '\n' :: (format_srt_time (srtNormalizeTimes seg.start seg.stop).1
              ++ " --> ".toList ++ format_srt_time (srtNormalizeTimes seg.start seg.stop).2)
            ++ '\n' :: (pyStrip (srtText seg use_translated) ++ ['\n'])) :: entries)

/-- `generate_srt`: SRT text from a segment list (empty list encodes to the
empty string; entries are joined with a single newline, each entry carrying
its own trailing newline). -/
def generate_srt (segments : List SrtSegment) (use_translated : Bool) :
    Except (List Char) (List Char) :=
  if segments = [] then Except.ok []
  else (genEntries use_translated 1 segments).map (joinSep ['\n'])

/-- One decoded SRT block (the dicts returned by `parse_srt`). -/
structure SrtBlock where
  id : ℤ
  start : ℚ
  «end» : ℚ
  text : List Char
deriving DecidableEq

/-- The block loop of `parse_srt`.  A block that is blank, too short, or
fails integer/timestamp parsing (`ValueError`) is skipped; a timestamp line
without `" --> "` raises `SubtitleError`, aborting the whole parse. -/
def parseBlocks : List (List Char) → Except (List Char) (List SrtBlock)
  | [] => Except.ok []
  | block :: rest =>
    if pyStrip block = [] then parseBlocks rest
    else
      let lines := splitOnSub ['\n'] (pyStrip block)
      if lines.length < 3 then parseBlocks rest
      else
        match pyInt (pyStrip (lines.getD 0 [])) with
        | none => parseBlocks rest
        | some segId =>
          let timestampLine := pyStrip (lines.getD 1 [])
          if " --> ".toList <:+: timestampLine then
            match splitOnSub " --> ".toList timestampLine with
            | [startStr, endStr] =>
              match parse_srt_time (pyStrip startStr),
                  parse_srt_time (pyStrip endStr) with
              | some s, some e =>
                let text := pyStrip (joinSep ['\n'] (lines.drop 2))
                match parseBlocks rest with
                | Except.error msg => Except.error msg
                | Except.ok blocks => Except.ok (⟨segId, s, e, text⟩ :: blocks)
              | _, _ => parseBlocks rest
            | _ => parseBlocks rest
          else
            Except.error ("Invalid timestamp line: ".toList ++ timestampLine)

/-- `parse_srt`: strip the content, split on blank lines, decode each block
leniently (`SubtitleError` from a malformed timestamp line still aborts). -/
def parse_srt (srt_content : List Char) : Except (List Char) (List SrtBlock) :=
  parseBlocks (splitOnSub "\n\n".toList (pyStrip srt_content))

/-- The block loop of `validate_srt`: accumulates human-readable violations;
`i` is the 1-based block index, `prevEnd` the previous successfully parsed
block end (initially 0). -/
def validateBlocks : ℕ → ℚ → List (List Char) → List (List Char)
  | _, _, [] => []
  | i, prevEnd, block :: rest =>
    if pyStrip block = [] then validateBlocks (i + 1) prevEnd rest
    else
      let lines := splitOnSub ['\n'] (pyStrip block)
      if lines.length < 3 then
        ("Block ".toList ++ natToChars i
          ++ ": Insufficient lines (need at least 3)".toList)
          :: validateBlocks (i + 1) prevEnd rest
      else
        let idErrs :=
          match pyInt (pyStrip (lines.getD 0 [])) with
          | some segId =>
            if segId ≠ (i : ℤ) then
              ["Block ".toList ++ natToChars i
                ++ ": Segment ID mismatch (expected ".toList ++ natToChars i
                ++ ", got ".toList ++ intToChars segId ++ ")".toList]
            else []
          | none =>
            ["Block ".toList ++ natToChars i
              ++ ": Invalid segment ID '".toList ++ lines.getD 0 [] ++ "'".toList]
        let timestampLine := pyStrip (lines.getD 1 [])
        if " --> ".toList <:+: timestampLine then
          let textErrs :=
            if pyStrip (joinSep ['\n'] (lines.drop 2)) = [] then
              ["Block ".toList ++ natToChars i ++ ": Empty text content".toList]
            else []
          match splitOnSub " --> ".toList timestampLine with
          | [startStr, endStr] =>
            match parse_srt_time (pyStrip startStr),
                parse_srt_time (pyStrip endStr) with
            | some s, some e =>
              let tsErrs :=
                (if e ≤ s then
                  ["Block ".toList ++ natToChars i ++ ": End time (".toList
                    ++ ratToChars e ++ ") <= start time (".toList
                    ++ ratToChars s ++ ")".toList]
                 else []) ++
                (if s < prevEnd then
                  ["Block ".toList ++ natToChars i
                    ++ ": Overlapping with previous segment".toList]
                 else [])
              (idErrs ++ tsErrs ++ textErrs) ++ validateBlocks (i + 1) e rest
            | _, _ =>
              (idErrs ++ ["Block ".toList ++ natToChars i
                ++ ": Invalid timestamp format".toList] ++ textErrs)
                ++ validateBlocks (i + 1) prevEnd rest
          | _ =>
            (idErrs ++ ["Block ".toList ++ natToChars i
              ++ ": Invalid timestamp format".toList] ++ textErrs)
              ++ validateBlocks (i + 1) prevEnd rest
        else
          (idErrs ++ ["Block ".toList ++ natToChars i
            ++ ": Missing ' --> ' in timestamp".toList])
            ++ validateBlocks (i + 1) prevEnd rest

/-- `validate_srt`: non-mutating validity check, returning
`(is_valid, violations)`. -/
def validate_srt (srt_content : List Char) : Bool × List (List Char) :=
  if pyStrip srt_content = [] then (false, ["Empty SRT content".toList])
  else
    let errors := validateBlocks 1 0 (splitOnSub "\n\n".toList (pyStrip srt_content))
    (errors.isEmpty, errors)

deriving instance DecidableEq for Except

/-! ### Structural facts about rendered bodies -/

theorem pyStrip_eq_self (l : List Char)
    (hh : ∀ x, l.head? = some x → pyIsSpace x = false)
    (hl : ∀ x, l.getLast? = some x → pyIsSpace x = false) : pyStrip l = l := by
  have h1 : l.dropWhile pyIsSpace = l := by
    apply List.dropWhile_eq_self_iff.mpr
    intro hlen
    cases l with
    | nil => simp at hlen
    | cons a t =>
      have ha := hh a rfl
      simp [ha]
  have h2 : l.rdropWhile pyIsSpace = l := by
    apply List.rdropWhile_eq_self_iff.mpr
    intro hne
    have := hl (l.getLast hne) (List.getLast?_eq_getLast l hne)
    simp [this]
  rw [pyStrip, h1, h2]

theorem natToChars_cons (n : ℕ) :
    ∃ d t, d < 10 ∧ natToChars n = digitOfNat d :: t := by
  induction n using Nat.strong_induction_on with
  | _ n ih =>
    rw [natToChars_eq]
    split
    · next h => exact ⟨n, [], h, rfl⟩
    · next h =>
      obtain ⟨d, t, hd, ht⟩ := ih (n / 10) (Nat.div_lt_self (by omega) (by omega))
      exact ⟨d, t ++ [digitOfNat (n % 10)], hd, by rw [ht]; simp⟩

theorem natToChars_getLast? (n : ℕ) :
    ∃ d, d < 10 ∧ (natToChars n).getLast? = some (digitOfNat d) := by
  rw [natToChars_eq]
  split
  · next h => exact ⟨n, h, rfl⟩
  · next h =>
    exact ⟨n % 10, Nat.mod_lt _ (by omega), List.getLast?_concat _⟩

theorem pad2_cons (n : ℕ) :
    ∃ d t, d < 10 ∧ pad2 n = digitOfNat d :: t := by
  unfold pad2
  split
  · exact ⟨0, natToChars n, by omega, rfl⟩
  · exact natToChars_cons n

theorem pad3_getLast? (n : ℕ) :
    ∃ d, d < 10 ∧ (pad3 n).getLast? = some (digitOfNat d) := by
  obtain ⟨d, hd, hlast⟩ := natToChars_getLast? n
  have hne := natToChars_ne_nil n
  unfold pad3
  split
  · refine ⟨d, hd, ?_⟩
    rw [show ('0' :: '0' :: natToChars n) = ['0', '0'] ++ natToChars n from rfl,
      List.getLast?_append_of_ne_nil _ hne, hlast]
  · split
    · refine ⟨d, hd, ?_⟩
      rw [show ('0' :: natToChars n) = ['0'] ++ natToChars n from rfl,
        List.getLast?_append_of_ne_nil _ hne, hlast]
    · exact ⟨d, hd, hlast⟩

theorem format_srt_time_chars (q : ℚ) :
    ∀ c ∈ format_srt_time q, (∃ d, d < 10 ∧ c = digitOfNat d) ∨ c = ':' ∨ c = ',' := by
  intro c hc
  unfold format_srt_time at hc
  rcases List.mem_append.mp hc with h1 | h4
  · rcases List.mem_append.mp h1 with h2 | h3
    · rcases List.mem_append.mp h2 with ha | hb
      · exact Or.inl (pad2_digits _ _ ha)
      · rcases List.mem_cons.mp hb with heq | hb2
        · exact Or.inr (Or.inl heq)
        · exact Or.inl (pad2_digits _ _ hb2)
    · rcases List.mem_cons.mp h3 with heq | h3b
      · exact Or.inr (Or.inl heq)
      · exact Or.inl (pad2_digits _ _ h3b)
  · rcases List.mem_cons.mp h4 with heq | h4b
    · exact Or.inr (Or.inr heq)
    · exact Or.inl (pad3_digits _ _ h4b)

theorem format_srt_time_not_space (q : ℚ) :
    ∀ c ∈ format_srt_time q, pyIsSpace c = false := by
  intro c hc
  rcases format_srt_time_chars q c hc with ⟨d, hd, rfl⟩ | rfl | rfl
  · exact digitOfNat_not_space hd
  · rfl
  · rfl

theorem newline_not_mem_format (q : ℚ) : '\n' ∉ format_srt_time q := by
  intro hmem
  have := format_srt_time_not_space q '\n' hmem
  simp [pyIsSpace] at this

theorem space_not_mem_format (q : ℚ) : ' ' ∉ format_srt_time q := by
  intro hmem
  rcases format_srt_time_chars q ' ' hmem with ⟨d, hd, hcd⟩ | h | h
  · exact digitOfNat_ne ' ' hd rfl hcd.symm
  · exact absurd h (by decide)
  · exact absurd h (by decide)

theorem format_srt_time_head? (q : ℚ) :
    ∃ d, d < 10 ∧ (format_srt_time q).head? = some (digitOfNat d) := by
  obtain ⟨d, t, hd, ht⟩ := pad2_cons (srtHours (srtClamp q))
  refine ⟨d, hd, ?_⟩
  unfold format_srt_time
  rw [ht]
  simp

theorem format_srt_time_ne_nil (q : ℚ) : format_srt_time q ≠ [] := by
  obtain ⟨d, hd, hh⟩ := format_srt_time_head? q
  intro hnil
  rw [hnil] at hh
  simp at hh

theorem format_srt_time_getLast? (q : ℚ) :
    ∃ d, d < 10 ∧ (format_srt_time q).getLast? = some (digitOfNat d) := by
  obtain ⟨d, hd, hlast⟩ := pad3_getLast? (srtMillis (srtClamp q))
  refine ⟨d, hd, ?_⟩
  unfold format_srt_time
  have hpne : pad3 (srtMillis (srtClamp q)) ≠ [] := by
    intro hnil
    rw [hnil] at hlast
    simp at hlast
  rw [List.getLast?_append_of_ne_nil _
      (show (',' :: pad3 (srtMillis (srtClamp q))) ≠ [] by simp),
    show (',' :: pad3 (srtMillis (srtClamp q)))
      = [','] ++ pad3 (srtMillis (srtClamp q)) from rfl,
    List.getLast?_append_of_ne_nil _ hpne, hlast]

theorem head?_append_of_ne_nil {a : List Char} (b : List Char) (h : a ≠ []) :
    (a ++ b).head? = a.head? := by
  cases a with
  | nil => exact absurd rfl h
  | cons c t => rfl

theorem sepFree_nn_append {A B : List Char} (hA : '\n' ∉ A)
    (hB : sepFree ['\n', '\n'] B) : sepFree ['\n', '\n'] (A ++ B) := by
  induction A with
  | nil => simpa using hB
  | cons c A' ih =>
    intro t hsuf hpre
    rw [List.cons_append, List.suffix_cons_iff] at hsuf
    rcases hsuf with rfl | hsuf
    · rw [List.cons_prefix_cons] at hpre
      exact hA (by simp [hpre.1.symm])
    · exact ih (fun hmem => hA (List.mem_cons_of_mem c hmem)) t hsuf hpre

theorem sepFree_nn_cons_newline {C : List Char} (hC : sepFree ['\n', '\n'] C)
    (hhd : C.head? ≠ some '\n') : sepFree ['\n', '\n'] ('\n' :: C) := by
  intro t hsuf hpre
  rw [List.suffix_cons_iff] at hsuf
  rcases hsuf with rfl | hsuf
  · rw [List.cons_prefix_cons] at hpre
    obtain ⟨-, hpre2⟩ := hpre
    cases C with
    | nil => simp at hpre2
    | cons c0 C' =>
      rw [List.cons_prefix_cons] at hpre2
      exact hhd (by rw [← hpre2.1]; rfl)
  · exact hC t hsuf hpre

/-- Conditions on an emitted SRT body that make the blank-line join/split
unambiguous: starts with a digit, ends in a non-whitespace character, and
contains no blank line. -/
def GoodBody (b : List Char) : Prop :=
  (∃ d, d < 10 ∧ b.head? = some (digitOfNat d)) ∧
  (∀ x, b.getLast? = some x → pyIsSpace x = false) ∧
  sepFree ['\n', '\n'] b

theorem GoodBody.ne_nil {b : List Char} (h : GoodBody b) : b ≠ [] := by
  obtain ⟨⟨d, -, hh⟩, -, -⟩ := h
  intro hnil
  rw [hnil] at hh
  simp at hh

theorem GoodBody.boundary {b : List Char} (h : GoodBody b) :
    boundaryFree ['\n', '\n'] b := by
  obtain ⟨-, hlast, hfree⟩ := h
  apply boundaryFree_doubleNewline
  · exact (sepFree_iff_not_contains _ _).mp hfree
  · intro hsome
    have := hlast '\n' hsome
    simp [pyIsSpace] at this

theorem joinSep_ne_nil {sep : List Char} {b : List Char} (bodies : List (List Char))
    (hb : b ≠ []) : joinSep sep (b :: bodies) ≠ [] := by
  cases bodies with
  | nil => simpa [joinSep_singleton]
  | cons b2 rest =>
    rw [joinSep_cons₂]
    simp [hb]

theorem joinSep_head?_mem (sep : List Char) :
    ∀ bodies : List (List Char), (∀ b ∈ bodies, b ≠ []) →
      ∀ x, (joinSep sep bodies).head? = some x → ∃ b ∈ bodies, b.head? = some x := by
  intro bodies
  cases bodies with
  | nil => intro _ x hx; simp [joinSep_nil] at hx
  | cons b rest =>
    intro hne x hx
    cases rest with
    | nil =>
      rw [joinSep_singleton] at hx
      exact ⟨b, by simp, hx⟩
    | cons b2 rest' =>
      rw [joinSep_cons₂, List.append_assoc,
        head?_append_of_ne_nil _ (hne b (by simp))] at hx
      exact ⟨b, by simp, hx⟩

theorem joinSep_getLast?_mem {sep : List Char} (hsep : sep ≠ []) :
    ∀ bodies : List (List Char), (∀ b ∈ bodies, b ≠ []) →
      ∀ x, (joinSep sep bodies).getLast? = some x → ∃ b ∈ bodies, b.getLast? = some x := by
  intro bodies
  induction bodies with
  | nil => intro _ x hx; simp [joinSep_nil] at hx
  | cons b rest ih =>
    intro hne x hx
    cases rest with
    | nil =>
      rw [joinSep_singleton] at hx
      exact ⟨b, by simp, hx⟩
    | cons b2 rest' =>
      rw [joinSep_cons₂] at hx
      have hJ : joinSep sep (b2 :: rest') ≠ [] :=
        joinSep_ne_nil rest' (hne b2 (by simp))
      rw [List.getLast?_append_of_ne_nil _ hJ] at hx
      obtain ⟨b', hb', hx'⟩ := ih (fun c hc => hne c (List.mem_cons_of_mem b hc)) x hx
      exact ⟨b', List.mem_cons_of_mem b hb', hx'⟩

theorem joinSep_map_newline (bodies : List (List Char)) (hne : bodies ≠ []) :
    joinSep ['\n'] (bodies.map (fun b => b ++ ['\n']))
      = joinSep ['\n', '\n'] bodies ++ ['\n'] := by
  induction bodies with
  | nil => exact absurd rfl hne
  | cons b rest ih =>
    cases rest with
    | nil => simp [joinSep_singleton]
    | cons b2 rest' =>
      have hm : List.map (fun b => b ++ ['\n']) (b2 :: rest')
          = (b2 ++ ['\n']) :: List.map (fun b => b ++ ['\n']) rest' := rfl
      rw [List.map_cons, hm, joinSep_cons₂, ← hm, ih (by simp), joinSep_cons₂]
      simp [List.append_assoc]

theorem pyStrip_join_newline (bodies : List (List Char)) (hne : bodies ≠ [])
    (hgood : ∀ b ∈ bodies, GoodBody b) :
    pyStrip (joinSep ['\n', '\n'] bodies ++ ['\n']) = joinSep ['\n', '\n'] bodies := by
  obtain ⟨b0, rest, rfl⟩ : ∃ b0 rest, bodies = b0 :: rest := by
    cases bodies with
    | nil => exact absurd rfl hne
    | cons b0 rest => exact ⟨b0, rest, rfl⟩
  have hb0 := hgood b0 (by simp)
  have hJne : joinSep ['\n', '\n'] (b0 :: rest) ≠ [] :=
    joinSep_ne_nil rest hb0.ne_nil
  have hrd : (joinSep ['\n', '\n'] (b0 :: rest)).rdropWhile pyIsSpace
      = joinSep ['\n', '\n'] (b0 :: rest) := by
    apply List.rdropWhile_eq_self_iff.mpr
    intro hn
    obtain ⟨b', hb', hx⟩ := joinSep_getLast?_mem (by simp) (b0 :: rest)
      (fun b hb => (hgood b hb).ne_nil)
      ((joinSep ['\n', '\n'] (b0 :: rest)).getLast hn)
      (List.getLast?_eq_getLast _ hn)
    have := (hgood b' hb').2.1 _ hx
    simp [this]
  cases hJ : joinSep ['\n', '\n'] (b0 :: rest) with
  | nil => exact absurd hJ hJne
  | cons c t =>
    obtain ⟨b', hb', hx⟩ := joinSep_head?_mem ['\n', '\n'] (b0 :: rest)
      (fun b hb => (hgood b hb).ne_nil) c (by rw [hJ]; rfl)
    obtain ⟨⟨d, hd, hh⟩, -, -⟩ := hgood b' hb'
    rw [hh] at hx
    have hc : c = digitOfNat d := by injection hx with h; exact h.symm
    have hcns : pyIsSpace c = false := by rw [hc]; exact digitOfNat_not_space hd
    rw [pyStrip, List.cons_append, List.dropWhile_cons]
    rw [hcns]
    simp only [Bool.false_eq_true, if_false]
    rw [show c :: (t ++ ['\n']) = (c :: t) ++ ['\n'] from rfl, List.rdropWhile_concat]
    simp only [show pyIsSpace '\n' = true from rfl, if_pos]
    rw [← hJ]
    exact hrd

theorem splitOnSub_joinSep_nn :
    ∀ bodies : List (List Char), bodies ≠ [] → (∀ b ∈ bodies, GoodBody b) →
      splitOnSub ['\n', '\n'] (joinSep ['\n', '\n'] bodies) = bodies := by
  intro bodies
  induction bodies with
  | nil => intro h _; exact absurd rfl h
  | cons b rest ih =>
    intro _ hgood
    cases rest with
    | nil =>
      rw [joinSep_singleton]
      exact splitOnSub_of_sepFree (by simp) b (hgood b (by simp)).2.2
    | cons b2 rest' =>
      rw [joinSep_cons₂,
        splitOnSub_append (by simp) b _ (hgood b (by simp)).boundary,
        ih (by simp) (fun c hc => hgood c (List.mem_cons_of_mem b hc))]

/-! ### Well-formed segments and their rendered bodies -/

/-- Scanner for two consecutive newline characters. -/
def hasDoubleNewline : List Char → Bool
  | [] => false
  | [_] => false
  | a :: b :: rest => (a = '\n' && b = '\n') || hasDoubleNewline (b :: rest)

theorem hasDoubleNewline_of_contains :
    ∀ l : List Char, ['\n', '\n'] <:+: l → hasDoubleNewline l = true := by
  intro l
  induction l with
  | nil => intro h; simp at h
  | cons a rest ih =>
    intro h
    rw [List.infix_cons_iff] at h
    cases rest with
    | nil =>
      rcases h with h | h
      · rw [List.prefix_iff_eq_take] at h
        simp at h
      · simp at h
    | cons b rest' =>
      simp only [hasDoubleNewline, Bool.or_eq_true, Bool.and_eq_true, decide_eq_true_eq]
      rcases h with h | h
      · rw [List.cons_prefix_cons] at h
        obtain ⟨ha, h2⟩ := h
        rw [List.cons_prefix_cons] at h2
        exact Or.inl ⟨ha.symm, h2.1.symm⟩
      · exact Or.inr (ih h)

/-- The conditions under which `generate_srt` emits one block for a segment
without error, swap, skip, or text mutation: non-negative ordered times and
an already-stripped non-empty text with no blank line inside. -/
def GoodSeg (u : Bool) (seg : SrtSegment) : Prop :=
  0 ≤ seg.start ∧ seg.start ≤ seg.stop ∧
  pyStrip (srtText seg u) = srtText seg u ∧
  srtText seg u ≠ [] ∧
  hasDoubleNewline (srtText seg u) = false

/-- The block body (entry without its trailing newline) that `generate_srt`
emits for segment `seg` at 1-based input position `i`. -/
def srtBody (u : Bool) (i : ℕ) (seg : SrtSegment) : List Char :=
  natToChars i ++ '\n' :: (format_srt_time seg.start ++ " --> ".toList
    ++ format_srt_time seg.stop) ++ '\n' :: srtText seg u

/-- The bodies emitted for a segment list starting at position `i`. -/
def bodiesFrom (u : Bool) : ℕ → List SrtSegment → List (List Char)
  | _, [] => []
  | i, seg :: rest => srtBody u i seg :: bodiesFrom u (i + 1) rest

theorem stripped_parts {t : List Char} (h : pyStrip t = t) :
    t.dropWhile pyIsSpace = t ∧ t.rdropWhile pyIsSpace = t := by
  have l1 : (t.dropWhile pyIsSpace).length ≤ t.length :=
    (List.dropWhile_suffix pyIsSpace).length_le
  have l2 : ((t.dropWhile pyIsSpace).rdropWhile pyIsSpace).length
      ≤ (t.dropWhile pyIsSpace).length :=
    (List.rdropWhile_prefix pyIsSpace (t.dropWhile pyIsSpace)).length_le
  have hlen : (t.dropWhile pyIsSpace).length = t.length := by
    have : t.length ≤ (t.dropWhile pyIsSpace).length := by
      rw [show (t.dropWhile pyIsSpace).rdropWhile pyIsSpace = t from h] at l2
      exact l2
    omega
  have e1 : t.dropWhile pyIsSpace = t :=
    (List.dropWhile_suffix pyIsSpace).eq_of_length hlen
  refine ⟨e1, ?_⟩
  have := h
  rw [pyStrip, e1] at this
  exact this

theorem stripped_head_not_space {t : List Char} (h : pyStrip t = t) :
    ∀ x, t.head? = some x → pyIsSpace x = false := by
  intro x hx
  have hd := (stripped_parts h).1
  cases t with
  | nil => simp at hx
  | cons a t' =>
    have ha : a = x := by injection hx with h2
    subst ha
    rw [List.dropWhile_cons] at hd
    by_contra hcon
    rw [show pyIsSpace a = true by revert hcon; cases pyIsSpace a <;> simp] at hd
    simp only [if_pos] at hd
    have hmono : (List.dropWhile pyIsSpace t').length ≤ t'.length :=
      (List.dropWhile_suffix pyIsSpace).length_le
    have hlen : (a :: t').length = (List.dropWhile pyIsSpace t').length := by rw [← hd]
    simp only [List.length_cons] at hlen
    omega

theorem stripped_getLast_not_space {t : List Char} (h : pyStrip t = t) :
    ∀ x, t.getLast? = some x → pyIsSpace x = false := by
  intro x hx
  have hrd := (stripped_parts h).2
  rw [List.rdropWhile_eq_self_iff] at hrd
  have hne : t ≠ [] := by
    intro hnil
    rw [hnil] at hx
    simp at hx
  have := hrd hne
  rw [List.getLast?_eq_getLast t hne] at hx
  have hxe : t.getLast hne = x := by injection hx with h2
  rw [hxe] at this
  revert this
  cases pyIsSpace x <;> simp

theorem newline_not_mem_natToChars (i : ℕ) : '\n' ∉ natToChars i := by
  intro hmem
  obtain ⟨d, hd, hc⟩ := natToChars_digits i '\n' hmem
  exact digitOfNat_ne '\n' hd rfl hc.symm

theorem arrow_sep_shape : " --> ".toList = ' ' :: ['-', '-', '>', ' '] := rfl

theorem newline_not_mem_tsLine (s e : ℚ) :
    '\n' ∉ format_srt_time s ++ " --> ".toList ++ format_srt_time e := by
  intro hmem
  rcases List.mem_append.mp hmem with h1 | h2
  · rcases List.mem_append.mp h1 with h3 | h4
    · exact newline_not_mem_format s h3
    · revert h4
      decide
  · exact newline_not_mem_format e h2

theorem tsLine_head? (s e : ℚ) :
    ∃ d, d < 10 ∧ (format_srt_time s ++ " --> ".toList ++ format_srt_time e).head?
      = some (digitOfNat d) := by
  obtain ⟨d, hd, hh⟩ := format_srt_time_head? s
  refine ⟨d, hd, ?_⟩
  rw [List.append_assoc, head?_append_of_ne_nil _ (format_srt_time_ne_nil s), hh]

theorem tsLine_getLast? (s e : ℚ) :
    ∃ d, d < 10 ∧ (format_srt_time s ++ " --> ".toList ++ format_srt_time e).getLast?
      = some (digitOfNat d) := by
  obtain ⟨d, hd, hh⟩ := format_srt_time_getLast? e
  refine ⟨d, hd, ?_⟩
  rw [List.getLast?_append_of_ne_nil _ (format_srt_time_ne_nil e), hh]

theorem pyStrip_tsLine (s e : ℚ) :
    pyStrip (format_srt_time s ++ " --> ".toList ++ format_srt_time e)
      = format_srt_time s ++ " --> ".toList ++ format_srt_time e := by
  apply pyStrip_eq_self
  · intro x hx
    obtain ⟨d, hd, hh⟩ := tsLine_head? s e
    rw [hh] at hx
    have : x = digitOfNat d := by injection hx with h2; exact h2.symm
    rw [this]
    exact digitOfNat_not_space hd
  · intro x hx
    obtain ⟨d, hd, hh⟩ := tsLine_getLast? s e
    rw [hh] at hx
    have : x = digitOfNat d := by injection hx with h2; exact h2.symm
    rw [this]
    exact digitOfNat_not_space hd

theorem arrow_infix_tsLine (s e : ℚ) :
    " --> ".toList <:+: format_srt_time s ++ " --> ".toList ++ format_srt_time e := by
  rw [List.infix_iff_prefix_suffix]
  refine ⟨" --> ".toList ++ format_srt_time e, List.prefix_append _ _, ?_⟩
  rw [List.append_assoc]
  exact List.suffix_append _ _

theorem splitOnSub_tsLine (s e : ℚ) :
    splitOnSub " --> ".toList
        (format_srt_time s ++ " --> ".toList ++ format_srt_time e)
      = [format_srt_time s, format_srt_time e] := by
  rw [splitOnSub_append (by decide) (format_srt_time s) (format_srt_time e)
      (by rw [arrow_sep_shape]; exact boundaryFree_head_not_mem (space_not_mem_format s)),
    splitOnSub_of_sepFree (by decide) (format_srt_time e)
      (by rw [arrow_sep_shape]; exact sepFree_head_not_mem (space_not_mem_format e))]

/-- Reassociated shape of a body, convenient for splitting. -/
theorem srtBody_shape (u : Bool) (i : ℕ) (seg : SrtSegment) :
    srtBody u i seg
      = natToChars i ++ '\n' :: ((format_srt_time seg.start ++ " --> ".toList
          ++ format_srt_time seg.stop) ++ '\n' :: srtText seg u) := by
  unfold srtBody
  simp [List.append_assoc]

theorem srtBody_good (u : Bool) (i : ℕ) (seg : SrtSegment) (h : GoodSeg u seg) :
    GoodBody (srtBody u i seg) := by
  obtain ⟨h0, hle, hstrip, hne, hnn⟩ := h
  refine ⟨?_, ?_, ?_⟩
  · obtain ⟨d, t, hd, ht⟩ := natToChars_cons i
    refine ⟨d, hd, ?_⟩
    rw [srtBody_shape, ht]
    rfl
  · intro x hx
    rw [srtBody_shape,
      List.getLast?_append_of_ne_nil _ (by simp),
      show ('\n' :: ((format_srt_time seg.start ++ " --> ".toList
          ++ format_srt_time seg.stop) ++ '\n' :: srtText seg u))
        = ('\n' :: (format_srt_time seg.start ++ " --> ".toList
          ++ format_srt_time seg.stop)) ++ '\n' :: srtText seg u by simp,
      List.getLast?_append_of_ne_nil _ (by simp),
      show ('\n' :: srtText seg u) = ['\n'] ++ srtText seg u from rfl,
      List.getLast?_append_of_ne_nil _ hne] at hx
    exact stripped_getLast_not_space hstrip x hx
  · rw [srtBody_shape]
    have sT : sepFree ['\n', '\n'] (srtText seg u) :=
      (sepFree_iff_not_contains _ _).mpr (fun hinf => by
        rw [hasDoubleNewline_of_contains _ hinf] at hnn
        cases hnn)
    have hThd : (srtText seg u).head? ≠ some '\n' := by
      intro hsome
      have := stripped_head_not_space hstrip '\n' hsome
      simp [pyIsSpace] at this
    have sT2 : sepFree ['\n', '\n'] ('\n' :: srtText seg u) :=
      sepFree_nn_cons_newline sT hThd
    have sXT : sepFree ['\n', '\n'] ((format_srt_time seg.start ++ " --> ".toList
        ++ format_srt_time seg.stop) ++ '\n' :: srtText seg u) :=
      sepFree_nn_append (newline_not_mem_tsLine _ _) sT2
    have hXhd : ((format_srt_time seg.start ++ " --> ".toList
        ++ format_srt_time seg.stop) ++ '\n' :: srtText seg u).head? ≠ some '\n' := by
      obtain ⟨d, hd, hh⟩ := tsLine_head? seg.start seg.stop
      rw [head?_append_of_ne_nil _ (by
        intro hnil
        have h1 := List.append_eq_nil.mp hnil
        have h2 := List.append_eq_nil.mp h1.1
        exact format_srt_time_ne_nil seg.start h2.1)]
      rw [hh]
      intro hcon
      have heq : digitOfNat d = '\n' := by injection hcon with h2
      exact digitOfNat_ne '\n' hd rfl heq
    have sXT2 : sepFree ['\n', '\n'] ('\n' :: ((format_srt_time seg.start
        ++ " --> ".toList ++ format_srt_time seg.stop) ++ '\n' :: srtText seg u)) :=
      sepFree_nn_cons_newline sXT hXhd
    exact sepFree_nn_append (newline_not_mem_natToChars i) sXT2

theorem srtBody_lines (u : Bool) (i : ℕ) (seg : SrtSegment) :
    splitOnSub ['\n'] (srtBody u i seg)
      = natToChars i :: (format_srt_time seg.start ++ " --> ".toList
          ++ format_srt_time seg.stop) :: splitOnSub ['\n'] (srtText seg u) := by
  rw [srtBody_shape,
    splitOnSub_single_append _ (newline_not_mem_natToChars i),
    splitOnSub_single_append _ (newline_not_mem_tsLine seg.start seg.stop)]

theorem pyStrip_srtBody (u : Bool) (i : ℕ) (seg : SrtSegment) (h : GoodSeg u seg) :
    pyStrip (srtBody u i seg) = srtBody u i seg := by
  have hg := srtBody_good u i seg h
  apply pyStrip_eq_self
  · intro x hx
    obtain ⟨⟨d, hd, hh⟩, -, -⟩ := hg
    rw [hh] at hx
    have : digitOfNat d = x := by injection hx with h2
    rw [← this]
    exact digitOfNat_not_space hd
  · exact hg.2.1

theorem srtBody_ne_nil (u : Bool) (i : ℕ) (seg : SrtSegment) (h : GoodSeg u seg) :
    srtBody u i seg ≠ [] :=
  (srtBody_good u i seg h).ne_nil

theorem bodiesFrom_good (u : Bool) :
    ∀ segs : List SrtSegment, (∀ seg ∈ segs, GoodSeg u seg) → ∀ i,
      ∀ b ∈ bodiesFrom u i segs, GoodBody b := by
  intro segs
  induction segs with
  | nil => intro _ i b hb; simp [bodiesFrom] at hb
  | cons seg rest ih =>
    intro hgood i b hb
    rw [show bodiesFrom u i (seg :: rest)
      = srtBody u i seg :: bodiesFrom u (i + 1) rest from rfl] at hb
    rcases List.mem_cons.mp hb with rfl | hb2
    · exact srtBody_good u i seg (hgood seg (by simp))
    · exact ih (fun s hs => hgood s (List.mem_cons_of_mem seg hs)) (i + 1) b hb2

theorem bodiesFrom_ne_nil (u : Bool) (i : ℕ) (seg : SrtSegment)
    (rest : List SrtSegment) : bodiesFrom u i (seg :: rest) ≠ [] := by
  rw [show bodiesFrom u i (seg :: rest)
    = srtBody u i seg :: bodiesFrom u (i + 1) rest from rfl]
  simp

theorem genEntries_ok (u : Bool) :
    ∀ segs : List SrtSegment, (∀ seg ∈ segs, GoodSeg u seg) → ∀ i,
      genEntries u i segs
        = Except.ok ((bodiesFrom u i segs).map (fun b => b ++ ['\n'])) := by
  intro segs
  induction segs with
  | nil => intro _ i; rfl
  | cons seg rest ih =>
    intro hgood i
    obtain ⟨h0, hle, hstrip, hne, -⟩ := hgood seg (by simp)
    have hrec := ih (fun s hs => hgood s (List.mem_cons_of_mem seg hs)) (i + 1)
    have hnorm : srtNormalizeTimes seg.start seg.stop = (seg.start, seg.stop) := by
      unfold srtNormalizeTimes
      rw [if_neg (not_lt.mpr hle)]
    simp only [genEntries]
    rw [if_neg (by push_neg; exact ⟨h0, le_trans h0 hle⟩), hrec]
    dsimp only
    rw [if_neg (by rw [hstrip]; exact hne)]
    rw [show bodiesFrom u i (seg :: rest)
      = srtBody u i seg :: bodiesFrom u (i + 1) rest from rfl,
      List.map_cons]
    rw [hnorm, hstrip]
    unfold srtBody
    simp [List.append_assoc]

/-- Millisecond truncation, the value recovered by parsing a rendered time. -/
def truncMs (q : ℚ) : ℚ := (⌊q * 1000⌋ : ℚ) / 1000

/-- A time representable exactly at millisecond granularity. -/
def TimeMsExact (q : ℚ) : Prop := ((⌊q * 1000⌋ : ℚ)) = q * 1000

theorem truncMs_of_exact {q : ℚ} (h : TimeMsExact q) : truncMs q = q := by
  unfold truncMs
  rw [h]
  field_simp

/-- The blocks `parse_srt` recovers from the bodies of a good segment list:
ids follow the list position, times are millisecond-truncated, text is
preserved. -/
def blocksFrom (u : Bool) : ℕ → List SrtSegment → List SrtBlock
  | _, [] => []
  | i, seg :: rest =>
    ⟨(i : ℤ), truncMs seg.start, truncMs seg.stop, srtText seg u⟩
      :: blocksFrom u (i + 1) rest

set_option maxHeartbeats 2000000 in
theorem parseBlocks_bodiesFrom (u : Bool) :
    ∀ segs : List SrtSegment, (∀ seg ∈ segs, GoodSeg u seg) → ∀ i,
      parseBlocks (bodiesFrom u i segs) = Except.ok (blocksFrom u i segs) := by
  intro segs
  induction segs with
  | nil => intro _ i; rfl
  | cons seg rest ih =>
    intro hgood i
    obtain ⟨h0, hle, hstrip, hne, -⟩ := hgood seg (by simp)
    have hrec := ih (fun s hs => hgood s (List.mem_cons_of_mem seg hs)) (i + 1)
    have hbody := pyStrip_srtBody u i seg (hgood seg (by simp))
    have hlines := srtBody_lines u i seg
    have hsplitnl : splitOnSub ['\n'] (srtText seg u) ≠ [] :=
      splitOnSub_ne_nil _ _
    rw [show bodiesFrom u i (seg :: rest)
      = srtBody u i seg :: bodiesFrom u (i + 1) rest from rfl]
    simp only [parseBlocks]
    rw [if_neg (by rw [hbody]; exact srtBody_ne_nil u i seg (hgood seg (by simp)))]
    rw [hbody, hlines]
    have hlen : ¬ (natToChars i :: (format_srt_time seg.start ++ " --> ".toList
        ++ format_srt_time seg.stop) :: splitOnSub ['\n'] (srtText seg u)).length < 3 := by
      simp only [List.length_cons]
      have := List.length_pos.mpr hsplitnl
      omega
    rw [if_neg hlen]
    have hid : pyInt (pyStrip ((natToChars i :: (format_srt_time seg.start
        ++ " --> ".toList ++ format_srt_time seg.stop)
        :: splitOnSub ['\n'] (srtText seg u)).getD 0 [])) = some (i : ℤ) := by
      rw [show (natToChars i :: (format_srt_time seg.start ++ " --> ".toList
        ++ format_srt_time seg.stop) :: splitOnSub ['\n'] (srtText seg u)).getD 0 []
        = natToChars i from rfl,
        pyStrip_of_digits _ (natToChars_digits i), pyInt_natToChars]
    rw [hid]
    dsimp only
    have hts : pyStrip ((natToChars i :: (format_srt_time seg.start
        ++ " --> ".toList ++ format_srt_time seg.stop)
        :: splitOnSub ['\n'] (srtText seg u)).getD 1 [])
        = format_srt_time seg.start ++ " --> ".toList ++ format_srt_time seg.stop := by
      rw [show (natToChars i :: (format_srt_time seg.start ++ " --> ".toList
        ++ format_srt_time seg.stop) :: splitOnSub ['\n'] (srtText seg u)).getD 1 []
        = format_srt_time seg.start ++ " --> ".toList ++ format_srt_time seg.stop from rfl]
      exact pyStrip_tsLine seg.start seg.stop
    rw [hts]
    rw [if_pos (arrow_infix_tsLine seg.start seg.stop)]
    rw [splitOnSub_tsLine seg.start seg.stop]
    dsimp only
    rw [pyStrip_of_not_space _ (format_srt_time_not_space seg.start),
      pyStrip_of_not_space _ (format_srt_time_not_space seg.stop)]
    rw [parse_format_srt_time seg.start h0,
      parse_format_srt_time seg.stop (le_trans h0 hle)]
    dsimp only
    rw [show (natToChars i :: (format_srt_time seg.start ++ " --> ".toList
      ++ format_srt_time seg.stop) :: splitOnSub ['\n'] (srtText seg u)).drop 2
      = splitOnSub ['\n'] (srtText seg u) from rfl]
    rw [joinSep_splitOnSub (by simp) (srtText seg u), hstrip]
    rw [hrec]
    rfl

theorem blocksFrom_stats (u : Bool) :
    ∀ (segs : List SrtSegment) (i : ℕ),
      (blocksFrom u i segs).length = segs.length ∧
      (blocksFrom u i segs).map SrtBlock.start
        = segs.map (fun s => truncMs s.start) ∧
      (blocksFrom u i segs).map (fun b => b.«end»)
        = segs.map (fun s => truncMs s.stop) ∧
      (blocksFrom u i segs).map SrtBlock.text = segs.map (fun s => srtText s u) := by
  intro segs
  induction segs with
  | nil => intro i; exact ⟨rfl, rfl, rfl, rfl⟩
  | cons seg rest ih =>
    intro i
    obtain ⟨h1, h2, h3, h4⟩ := ih (i + 1)
    refine ⟨?_, ?_, ?_, ?_⟩ <;>
      simp only [blocksFrom, List.map_cons, List.length_cons, h1, h2, h3, h4]

theorem generate_parse_good (u : Bool) (segs : List SrtSegment) (hne : segs ≠ [])
    (hgood : ∀ seg ∈ segs, GoodSeg u seg) :
    generate_srt segs u
      = Except.ok (joinSep ['\n', '\n'] (bodiesFrom u 1 segs) ++ ['\n']) ∧
    parse_srt (joinSep ['\n', '\n'] (bodiesFrom u 1 segs) ++ ['\n'])
      = Except.ok (blocksFrom u 1 segs) := by
  obtain ⟨s0, srest, rfl⟩ : ∃ s0 srest, segs = s0 :: srest := by
    cases segs with
    | nil => exact absurd rfl hne
    | cons s0 srest => exact ⟨s0, srest, rfl⟩
  have hbodies : ∀ b ∈ bodiesFrom u 1 (s0 :: srest), GoodBody b :=
    bodiesFrom_good u _ hgood 1
  have hbne : bodiesFrom u 1 (s0 :: srest) ≠ [] := bodiesFrom_ne_nil u 1 s0 srest
  constructor
  · unfold generate_srt
    rw [if_neg (by simp), genEntries_ok u _ hgood 1]
    rw [show Except.map (joinSep ['\n'])
        ((Except.ok ((bodiesFrom u 1 (s0 :: srest)).map (fun b => b ++ ['\n'])))
          : Except (List Char) (List (List Char)))
      = Except.ok (joinSep ['\n'] ((bodiesFrom u 1 (s0 :: srest)).map (fun b => b ++ ['\n'])))
      from rfl]
    rw [joinSep_map_newline _ hbne]
  · unfold parse_srt
    rw [show "\n\n".toList = ['\n', '\n'] from rfl,
      pyStrip_join_newline _ hbne hbodies,
      splitOnSub_joinSep_nn _ hbne hbodies,
      parseBlocks_bodiesFrom u _ hgood 1]

instance (u : Bool) (seg : SrtSegment) : Decidable (GoodSeg u seg) := by
  unfold GoodSeg
  infer_instance

instance (q : ℚ) : Decidable (TimeMsExact q) := by
  unfold TimeMsExact
  infer_instance

unseal Rat.mul Rat.inv Rat.add Rat.sub in
/-- **C5 counterexample.** A non-empty segment list with a whitespace-only
text encodes to the empty string, which decodes to zero segments: the
round trip does not preserve the segment count for every non-empty list. -/
theorem c5_counterexample :
    generate_srt [SrtSegment.transcription ⟨1, 0, 1, " ".toList⟩] false
        = Except.ok [] ∧
    parse_srt [] = Except.ok ([] : List SrtBlock) ∧
    ([] : List SrtBlock).length
      ≠ [SrtSegment.transcription ⟨1, 0, 1, " ".toList⟩].length := by
  refine ⟨by decide, by decide, by decide⟩

/-- **C5 (amended).** For every non-empty segment list whose segments have
non-negative ordered whole-millisecond times and non-empty, stripped text
containing no blank line, decoding the encoded SRT yields the same number
of segments with exactly the same start, end, and text values.  (The
amendment excludes the cases the code deliberately alters: empty-text
segments are skipped on encode, texts are stripped, times are truncated to
milliseconds and swapped if reversed.) -/
theorem c5_roundtrip (u : Bool) (segs : List SrtSegment) (hne : segs ≠ [])
    (hgood : ∀ seg ∈ segs,
      GoodSeg u seg ∧ TimeMsExact seg.start ∧ TimeMsExact seg.stop) :
    ∃ out blocks, generate_srt segs u = Except.ok out ∧
      parse_srt out = Except.ok blocks ∧
      blocks.length = segs.length ∧
      blocks.map SrtBlock.start = segs.map SrtSegment.start ∧
      blocks.map (fun b => b.«end») = segs.map SrtSegment.stop ∧
      blocks.map SrtBlock.text = segs.map (fun s => srtText s u) := by
  have hgood' : ∀ seg ∈ segs, GoodSeg u seg := fun s hs => (hgood s hs).1
  obtain ⟨hgen, hparse⟩ := generate_parse_good u segs hne hgood'
  obtain ⟨h1, h2, h3, h4⟩ := blocksFrom_stats u segs 1
  refine ⟨_, _, hgen, hparse, h1, ?_, ?_, h4⟩
  · rw [h2]
    apply List.map_congr_left
    intro s hs
    exact truncMs_of_exact (hgood s hs).2.1
  · rw [h3]
    apply List.map_congr_left
    intro s hs
    exact truncMs_of_exact (hgood s hs).2.2

unseal Rat.mul Rat.inv Rat.add Rat.sub in
/-- **C5** witness: the round trip on a concrete two-segment list. -/
theorem c5_roundtrip_witness :
    ∃ out blocks,
      generate_srt [SrtSegment.transcription ⟨1, 0, 3/2, "Hello".toList⟩,
        SrtSegment.transcription ⟨2, 2, 3, "World".toList⟩] false = Except.ok out ∧
      parse_srt out = Except.ok blocks ∧
      blocks.length = 2 ∧
      blocks.map SrtBlock.start = [0, 2] ∧
      blocks.map (fun b => b.«end») = [3/2, 3] ∧
      blocks.map SrtBlock.text = ["Hello".toList, "World".toList] := by
  have h := c5_roundtrip false
    [SrtSegment.transcription ⟨1, 0, 3/2, "Hello".toList⟩,
      SrtSegment.transcription ⟨2, 2, 3, "World".toList⟩]
    (by decide)
    (by decide)
  obtain ⟨out, blocks, hgen, hparse, h1, h2, h3, h4⟩ := h
  exact ⟨out, blocks, hgen, hparse, h1, h2, h3, h4⟩

unseal Rat.mul Rat.inv Rat.add Rat.sub in
/-- **C9 counterexample.** The segment dataclasses perform no validation:
the transcription parser passes provider timestamps through unchanged, so a
`TranscriptionSegment` with `end < start` exists un-corrected (the swap
happens only inside `generate_srt`). -/
theorem c9_counterexample :
    ∃ s ∈ parseTranscription [(5, 2, "x".toList)], s.«end» < s.start := by
  refine ⟨⟨1, 5, 2, "x".toList⟩, by decide, by decide⟩

/-- **C9 (amended).** The `end ≥ start` invariant is established at SRT
encode time: the pair emitted by `generate_srt` (via `srtNormalizeTimes`,
the model of the in-place swap) always satisfies `end ≥ start`, a violating
segment is corrected by swapping start and end exactly, and an ordered
segment passes through unchanged. -/
theorem c9_swap_normalization (s e : ℚ) :
    (srtNormalizeTimes s e).1 ≤ (srtNormalizeTimes s e).2 ∧
    (e < s → srtNormalizeTimes s e = (e, s)) ∧
    (s ≤ e → srtNormalizeTimes s e = (s, e)) := by
  unfold srtNormalizeTimes
  by_cases h : e < s
  · rw [if_pos h]
    exact ⟨le_of_lt h, fun _ => rfl, fun hc => absurd h (not_lt.mpr hc)⟩
  · rw [if_neg h]
    exact ⟨not_lt.mp h, fun hc => absurd hc h, fun _ => rfl⟩

unseal Rat.mul Rat.inv Rat.add Rat.sub in
/-- **C9** witness at the violating pair `(5, 2)`: the swap fires. -/
theorem c9_swap_normalization_witness :
    (srtNormalizeTimes 5 2).1 ≤ (srtNormalizeTimes 5 2).2 ∧
    srtNormalizeTimes 5 2 = (2, 5) :=
  ⟨(c9_swap_normalization 5 2).1, (c9_swap_normalization 5 2).2.1 (by norm_num)⟩

/-! ## C10: skipped segments break block numbering -/

/-- The `"Segment ID mismatch"` violation recorded by `validate_srt` at
block index `i` for parsed label `j`. -/
def mismatchMsg (i : ℕ) (j : ℤ) : List Char :=
  "Block ".toList ++ natToChars i
    ++ ": Segment ID mismatch (expected ".toList ++ natToChars i
    ++ ", got ".toList ++ intToChars j ++ ")".toList

theorem segment_id_mismatch_contained (i : ℕ) (j : ℤ) :
    "Segment ID mismatch".toList <:+: mismatchMsg i j := by
  refine ⟨"Block ".toList ++ natToChars i ++ [':', ' '],
    " (expected ".toList ++ natToChars i ++ ", got ".toList
      ++ intToChars j ++ ")".toList, ?_⟩
  unfold mismatchMsg
  rw [show ": Segment ID mismatch (expected ".toList
    = [':', ' '] ++ ("Segment ID mismatch".toList ++ " (expected ".toList) from rfl]
  simp [List.append_assoc]

/-- A body rendered with label `j` but validated at index `i ≠ j` records
the ID-mismatch violation. -/
theorem validateBlocks_good_head (u : Bool) (j i : ℕ) (p : ℚ) (seg : SrtSegment)
    (h : GoodSeg u seg) (hne2 : (j : ℤ) ≠ (i : ℤ)) (rest : List (List Char)) :
    mismatchMsg i (j : ℤ) ∈ validateBlocks i p (srtBody u j seg :: rest) := by
  have hbody := pyStrip_srtBody u j seg h
  have hlines := srtBody_lines u j seg
  have h0 := h.1
  have hle := h.2.1
  have hstrip := h.2.2.1
  have hne := h.2.2.2.1
  have hsplitnl : splitOnSub ['\n'] (srtText seg u) ≠ [] :=
    splitOnSub_ne_nil _ _
  simp only [validateBlocks]
  rw [if_neg (by rw [hbody]; exact srtBody_ne_nil u j seg h)]
  rw [hbody, hlines]
  have hlen : ¬ (natToChars j :: (format_srt_time seg.start ++ " --> ".toList
      ++ format_srt_time seg.stop) :: splitOnSub ['\n'] (srtText seg u)).length < 3 := by
    simp only [List.length_cons]
    have := List.length_pos.mpr hsplitnl
    omega
  rw [if_neg hlen]
  have hid : pyInt (pyStrip ((natToChars j :: (format_srt_time seg.start
      ++ " --> ".toList ++ format_srt_time seg.stop)
      :: splitOnSub ['\n'] (srtText seg u)).getD 0 [])) = some (j : ℤ) := by
    rw [show (natToChars j :: (format_srt_time seg.start ++ " --> ".toList
      ++ format_srt_time seg.stop) :: splitOnSub ['\n'] (srtText seg u)).getD 0 []
      = natToChars j from rfl,
      pyStrip_of_digits _ (natToChars_digits j), pyInt_natToChars]
  rw [hid]
  dsimp only
  rw [if_pos hne2]
  have hts : pyStrip ((natToChars j :: (format_srt_time seg.start
      ++ " --> ".toList ++ format_srt_time seg.stop)
      :: splitOnSub ['\n'] (srtText seg u)).getD 1 [])
      = format_srt_time seg.start ++ " --> ".toList ++ format_srt_time seg.stop := by
    rw [show (natToChars j :: (format_srt_time seg.start ++ " --> ".toList
      ++ format_srt_time seg.stop) :: splitOnSub ['\n'] (srtText seg u)).getD 1 []
      = format_srt_time seg.start ++ " --> ".toList ++ format_srt_time seg.stop from rfl]
    exact pyStrip_tsLine seg.start seg.stop
  rw [hts]
  rw [if_pos (arrow_infix_tsLine seg.start seg.stop)]
  rw [splitOnSub_tsLine seg.start seg.stop]
  dsimp only
  rw [pyStrip_of_not_space _ (format_srt_time_not_space seg.start),
    pyStrip_of_not_space _ (format_srt_time_not_space seg.stop)]
  rw [parse_format_srt_time seg.start h0,
    parse_format_srt_time seg.stop (le_trans h0 hle)]
  dsimp only
  apply List.mem_append_left
  apply List.mem_append_left
  apply List.mem_append_left
  simp [mismatchMsg]

/-- Every block consumes exactly one index: a violation present in the tail
at every possible carried `prev_end` is present in the whole run. -/
theorem validateBlocks_mem_tail (i : ℕ) (p : ℚ) (b : List Char)
    (rest : List (List Char)) (x : List Char)
    (h : ∀ p', x ∈ validateBlocks (i + 1) p' rest) :
    x ∈ validateBlocks i p (b :: rest) := by
  simp only [validateBlocks]
  split
  · exact h p
  · split
    · exact List.mem_cons_of_mem _ (h p)
    · repeat' split
      all_goals first
        | exact List.mem_append_right _ (h _)
        | exact h _

/-- After any prefix of `P` blocks, a good body labelled `j ≠ i + |P|`
contributes the ID-mismatch violation at index `i + |P|`. -/
theorem validateBlocks_mismatch_mem (u : Bool) :
    ∀ (P : List (List Char)) (i : ℕ) (p : ℚ) (j : ℕ) (seg : SrtSegment)
      (rest : List (List Char)), GoodSeg u seg →
      (j : ℤ) ≠ ((i + P.length : ℕ) : ℤ) →
      mismatchMsg (i + P.length) (j : ℤ)
        ∈ validateBlocks i p (P ++ srtBody u j seg :: rest) := by
  intro P
  induction P with
  | nil =>
    intro i p j seg rest hg hne
    simpa using validateBlocks_good_head u j i p seg hg (by simpa using hne) rest
  | cons b P' ih =>
    intro i p j seg rest hg hne
    rw [List.cons_append]
    apply validateBlocks_mem_tail
    intro p'
    have harith : i + (b :: P').length = i + 1 + P'.length := by
      simp only [List.length_cons]
      omega
    rw [harith]
    exact ih (i + 1) p' j seg rest hg (by push_cast at hne ⊢; omega)

theorem bodiesFrom_length (u : Bool) :
    ∀ (segs : List SrtSegment) (i : ℕ),
      (bodiesFrom u i segs).length = segs.length := by
  intro segs
  induction segs with
  | nil => intro i; rfl
  | cons s r ih =>
    intro i
    rw [show bodiesFrom u i (s :: r) = srtBody u i s :: bodiesFrom u (i + 1) r
      from rfl]
    simp [ih]

/-- `generate_srt` skips a whitespace-text segment but still consumes its
1-based position: the bodies after the skipped segment are labelled from
`i + |A| + 1` instead of `i + |A|`. -/
theorem genEntries_skip (u : Bool) :
    ∀ (A : List SrtSegment), (∀ s ∈ A, GoodSeg u s) →
      ∀ (i : ℕ) (e : SrtSegment), 0 ≤ e.start → 0 ≤ e.stop →
        pyStrip (srtText e u) = [] →
      ∀ (B : List SrtSegment), (∀ s ∈ B, GoodSeg u s) →
      genEntries u i (A ++ e :: B)
        = Except.ok ((bodiesFrom u i A ++ bodiesFrom u (i + A.length + 1) B).map
            (fun b => b ++ ['\n'])) := by
  intro A
  induction A with
  | nil =>
    intro _ i e he1 he2 he3 B hB
    simp only [List.nil_append, genEntries]
    rw [if_neg (by push_neg; exact ⟨he1, he2⟩), genEntries_ok u B hB (i + 1)]
    dsimp only
    rw [if_pos he3]
    rw [show bodiesFrom u i ([] : List SrtSegment) = [] from rfl]
    norm_num
  | cons a A' ih =>
    intro hA i e he1 he2 he3 B hB
    have hga := hA a (by simp)
    have h0 := hga.1
    have hle := hga.2.1
    have hstrip := hga.2.2.1
    have hne := hga.2.2.2.1
    have hrec := ih (fun s hs => hA s (List.mem_cons_of_mem a hs))
      (i + 1) e he1 he2 he3 B hB
    have hnorm : srtNormalizeTimes a.start a.stop = (a.start, a.stop) := by
      unfold srtNormalizeTimes
      rw [if_neg (not_lt.mpr hle)]
    rw [List.cons_append]
    simp only [genEntries]
    rw [if_neg (by push_neg; exact ⟨h0, le_trans h0 hle⟩), hrec]
    dsimp only
    rw [if_neg (by rw [hstrip]; exact hne)]
    rw [show bodiesFrom u i (a :: A') = srtBody u i a :: bodiesFrom u (i + 1) A'
      from rfl]
    have harith : i + (a :: A').length + 1 = i + 1 + A'.length + 1 := by
      simp only [List.length_cons]
      omega
    rw [harith, List.cons_append, List.map_cons]
    rw [hnorm, hstrip]
    unfold srtBody
    simp [List.append_assoc]

/-- **C10.** If a non-last segment has whitespace-only text while all other
segments are well-formed with strictly increasing, non-overlapping times,
then `generate_srt` succeeds but numbers blocks by input position (the
bodies after the skipped segment are labelled from `|A| + 2`, not
`|A| + 1`), and `validate_srt` on that output returns `false` with a
`"Segment ID mismatch"` violation. -/
theorem c10_skipped_segment_numbering (u : Bool)
    (A B : List SrtSegment) (e : SrtSegment) (hB : B ≠ [])
    (hA : ∀ s ∈ A, GoodSeg u s) (hBgood : ∀ s ∈ B, GoodSeg u s)
    (he1 : 0 ≤ e.start) (he2 : 0 ≤ e.stop)
    (he3 : pyStrip (srtText e u) = [])
    (hsep : (A ++ e :: B).Chain' (fun s t => s.stop ≤ t.start))
    (hinc : ∀ s ∈ A ++ e :: B, s.start < s.stop) :
    generate_srt (A ++ e :: B) u
      = Except.ok (joinSep ['\n', '\n']
          (bodiesFrom u 1 A ++ bodiesFrom u (A.length + 2) B) ++ ['\n']) ∧
    (validate_srt (joinSep ['\n', '\n']
        (bodiesFrom u 1 A ++ bodiesFrom u (A.length + 2) B) ++ ['\n'])).1
      = false ∧
    ∃ msg ∈ (validate_srt (joinSep ['\n', '\n']
        (bodiesFrom u 1 A ++ bodiesFrom u (A.length + 2) B) ++ ['\n'])).2,
      "Segment ID mismatch".toList <:+: msg := by
  obtain ⟨b0, B', rfl⟩ : ∃ b0 B', B = b0 :: B' := by
    cases B with
    | nil => exact absurd rfl hB
    | cons b0 B' => exact ⟨b0, B', rfl⟩
  have hcons : bodiesFrom u (A.length + 2) (b0 :: B')
      = srtBody u (A.length + 2) b0 :: bodiesFrom u (A.length + 3) B' := rfl
  have hgoodall : ∀ b ∈ bodiesFrom u 1 A
      ++ bodiesFrom u (A.length + 2) (b0 :: B'), GoodBody b := by
    intro b hb
    rcases List.mem_append.mp hb with h1 | h2
    · exact bodiesFrom_good u A hA 1 b h1
    · exact bodiesFrom_good u (b0 :: B') hBgood (A.length + 2) b h2
  have hbne : bodiesFrom u 1 A ++ bodiesFrom u (A.length + 2) (b0 :: B') ≠ [] := by
    intro hnil
    have h2 := (List.append_eq_nil.mp hnil).2
    rw [hcons] at h2
    cases h2
  obtain ⟨c, cs, hcs⟩ : ∃ c cs, bodiesFrom u 1 A
      ++ bodiesFrom u (A.length + 2) (b0 :: B') = c :: cs := by
    cases hab : bodiesFrom u 1 A ++ bodiesFrom u (A.length + 2) (b0 :: B') with
    | nil => exact absurd hab hbne
    | cons c cs => exact ⟨c, cs, rfl⟩
  have hJne : joinSep ['\n', '\n'] (bodiesFrom u 1 A
      ++ bodiesFrom u (A.length + 2) (b0 :: B')) ≠ [] := by
    rw [hcs]
    exact joinSep_ne_nil cs (hgoodall c (by rw [hcs]; simp)).ne_nil
  have hgen : generate_srt (A ++ e :: b0 :: B') u
      = Except.ok (joinSep ['\n', '\n']
          (bodiesFrom u 1 A ++ bodiesFrom u (A.length + 2) (b0 :: B')) ++ ['\n']) := by
    unfold generate_srt
    rw [if_neg (by simp)]
    rw [genEntries_skip u A hA 1 e he1 he2 he3 (b0 :: B') hBgood]
    rw [show (1 : ℕ) + A.length + 1 = A.length + 2 by omega]
    dsimp only [Except.map]
    rw [joinSep_map_newline _ hbne]
  have hvs : validate_srt (joinSep ['\n', '\n']
        (bodiesFrom u 1 A ++ bodiesFrom u (A.length + 2) (b0 :: B')) ++ ['\n'])
      = ((validateBlocks 1 0 (bodiesFrom u 1 A
          ++ bodiesFrom u (A.length + 2) (b0 :: B'))).isEmpty,
        validateBlocks 1 0 (bodiesFrom u 1 A
          ++ bodiesFrom u (A.length + 2) (b0 :: B'))) := by
    unfold validate_srt
    rw [show "\n\n".toList = ['\n', '\n'] from rfl,
      pyStrip_join_newline _ hbne hgoodall,
      if_neg hJne,
      splitOnSub_joinSep_nn _ hbne hgoodall]
  have hmem : mismatchMsg (1 + A.length) ((A.length + 2 : ℕ) : ℤ)
      ∈ validateBlocks 1 0 (bodiesFrom u 1 A
        ++ bodiesFrom u (A.length + 2) (b0 :: B')) := by
    have hlen := bodiesFrom_length u A 1
    have h := validateBlocks_mismatch_mem u (bodiesFrom u 1 A) 1 0
      (A.length + 2) b0 (bodiesFrom u (A.length + 3) B')
      (hBgood b0 (by simp))
      (by rw [hlen]; push_cast; omega)
    rw [hlen] at h
    rw [hcons]
    exact h
  refine ⟨hgen, ?_, ?_⟩
  · rw [hvs]
    cases herr : validateBlocks 1 0 (bodiesFrom u 1 A
        ++ bodiesFrom u (A.length + 2) (b0 :: B')) with
    | nil => rw [herr] at hmem; cases hmem
    | cons x xs => rfl
  · refine ⟨mismatchMsg (1 + A.length) ((A.length + 2 : ℕ) : ℤ), ?_,
      segment_id_mismatch_contained _ _⟩
    rw [hvs]
    exact hmem

unseal Rat.mul Rat.inv Rat.add Rat.sub in
/-- **C10** witness on a concrete three-segment list whose middle segment
has whitespace-only text. -/
theorem c10_skipped_segment_numbering_witness :
    generate_srt [SrtSegment.transcription ⟨1, 0, 1, "a".toList⟩,
        SrtSegment.transcription ⟨2, 1, 2, " ".toList⟩,
        SrtSegment.transcription ⟨3, 2, 3, "b".toList⟩] false
      = Except.ok (joinSep ['\n', '\n']
          (bodiesFrom false 1 [SrtSegment.transcription ⟨1, 0, 1, "a".toList⟩]
            ++ bodiesFrom false
              ([SrtSegment.transcription ⟨1, 0, 1, "a".toList⟩].length + 2)
              [SrtSegment.transcription ⟨3, 2, 3, "b".toList⟩]) ++ ['\n']) ∧
    (validate_srt (joinSep ['\n', '\n']
        (bodiesFrom false 1 [SrtSegment.transcription ⟨1, 0, 1, "a".toList⟩]
          ++ bodiesFrom false
            ([SrtSegment.transcription ⟨1, 0, 1, "a".toList⟩].length + 2)
            [SrtSegment.transcription ⟨3, 2, 3, "b".toList⟩]) ++ ['\n'])).1
      = false ∧
    ∃ msg ∈ (validate_srt (joinSep ['\n', '\n']
        (bodiesFrom false 1 [SrtSegment.transcription ⟨1, 0, 1, "a".toList⟩]
          ++ bodiesFrom false
            ([SrtSegment.transcription ⟨1, 0, 1, "a".toList⟩].length + 2)
            [SrtSegment.transcription ⟨3, 2, 3, "b".toList⟩]) ++ ['\n'])).2,
      "Segment ID mismatch".toList <:+: msg :=
  c10_skipped_segment_numbering false
    [SrtSegment.transcription ⟨1, 0, 1, "a".toList⟩]
    [SrtSegment.transcription ⟨3, 2, 3, "b".toList⟩]
    (SrtSegment.transcription ⟨2, 1, 2, " ".toList⟩)
    (by decide) (by decide) (by decide) (by decide) (by decide) (by decide)
    (by
      show List.Chain' (fun s t => SrtSegment.stop s ≤ SrtSegment.start t)
        [SrtSegment.transcription ⟨1, 0, 1, "a".toList⟩,
          SrtSegment.transcription ⟨2, 1, 2, " ".toList⟩,
          SrtSegment.transcription ⟨3, 2, 3, "b".toList⟩]
      refine List.chain'_cons.mpr ⟨by decide, List.chain'_cons.mpr ⟨by decide, ?_⟩⟩
      simp)
    (by decide)

/-! ## The retrying AI client

`AIService._retry_with_backoff` and `AIService.translate_segments` from
`worker/services/ai_service.py`.  The external provider call is modelled as
an oracle `f : ℕ → Except (List Char) α` giving each attempt's outcome
(`error` carries the exception message).  Results are paired with the
number of provider calls made and the list of `time.sleep` delays, in
order, so the retry policy itself is observable. -/

def MAX_RETRIES : ℕ := 2

def RETRY_DELAYS : List ℕ := [1, 2]

/-- The `for attempt in range(MAX_RETRIES + 1)` loop of
`_retry_with_backoff`; `remaining` is the number of loop iterations left
(initially `MAX_RETRIES + 1`), `attempt` the current index. -/
def retryAux {α : Type} (f : ℕ → Except (List Char) α) (desc : List Char) :
    ℕ → ℕ → Except (List Char) α × ℕ × List ℕ
  | _, 0 => (Except.error desc, 0, [])
  | attempt, remaining + 1 =>
    match f attempt with
    | Except.ok v => (Except.ok v, 1, [])
    | Except.error e =>
      if attempt < MAX_RETRIES then
        let r := retryAux f desc (attempt + 1) remaining
        (r.1, r.2.1 + 1, RETRY_DELAYS.getD attempt 0 :: r.2.2)
      else
        (Except.error (desc ++ " failed: ".toList ++ e), 1, [])

/-- `_retry_with_backoff`: result, number of calls, sleep delays. -/
def retry_with_backoff {α : Type} (f : ℕ → Except (List Char) α)
    (desc : List Char) : Except (List Char) α × ℕ × List ℕ :=
  retryAux f desc 0 (MAX_RETRIES + 1)

theorem retry_ok0 {α : Type} (f : ℕ → Except (List Char) α) (desc : List Char)
    (v : α) (h : f 0 = Except.ok v) :
    retry_with_backoff f desc = (Except.ok v, 1, []) := by
  unfold retry_with_backoff retryAux
  rw [h]

/-- **C6.** The retry wrapper shared by transcription, translation and
speech synthesis makes at most 3 provider calls (initial try plus up to
`MAX_RETRIES = 2` retries).  If every attempt fails, the delays slept are
exactly `RETRY_DELAYS = [1, 2]` and the last underlying error is wrapped
into the single uniform service error — no partial result.  If some attempt
succeeds, its result is returned unchanged after exactly the failed
attempts' delays. -/
theorem c6_retry_policy {α : Type} (f : ℕ → Except (List Char) α)
    (desc : List Char) :
    (retry_with_backoff f desc).2.1 ≤ MAX_RETRIES + 1 ∧
    (∀ e0 e1 e2, f 0 = Except.error e0 → f 1 = Except.error e1 →
      f 2 = Except.error e2 →
      retry_with_backoff f desc
        = (Except.error (desc ++ " failed: ".toList ++ e2), 3, RETRY_DELAYS)) ∧
    (∀ v, f 0 = Except.ok v →
      retry_with_backoff f desc = (Except.ok v, 1, [])) ∧
    (∀ e0 v, f 0 = Except.error e0 → f 1 = Except.ok v →
      retry_with_backoff f desc = (Except.ok v, 2, [1])) ∧
    (∀ e0 e1 v, f 0 = Except.error e0 → f 1 = Except.error e1 →
      f 2 = Except.ok v →
      retry_with_backoff f desc = (Except.ok v, 3, [1, 2])) := by
  refine ⟨?_, ?_, ?_, ?_, ?_⟩
  · cases h0 : f 0 <;> cases h1 : f 1 <;> cases h2 : f 2 <;>
      simp [retry_with_backoff, retryAux, h0, h1, h2, MAX_RETRIES, RETRY_DELAYS]
  · intro e0 e1 e2 h0 h1 h2
    simp [retry_with_backoff, retryAux, h0, h1, h2, MAX_RETRIES, RETRY_DELAYS]
  · intro v h0
    exact retry_ok0 f desc v h0
  · intro e0 v h0 h1
    simp [retry_with_backoff, retryAux, h0, h1, MAX_RETRIES, RETRY_DELAYS]
  · intro e0 e1 v h0 h1 h2
    simp [retry_with_backoff, retryAux, h0, h1, h2, MAX_RETRIES, RETRY_DELAYS]

/-- **C6** witness: a provider failing twice then succeeding is called three
times, sleeps `[1, 2]`, and its third result is returned unchanged. -/
theorem c6_retry_policy_witness :
    (retry_with_backoff
        (fun n => if n < 2 then Except.error "boom".toList
          else (Except.ok 42 : Except (List Char) ℕ))
        "Translation".toList).2.1 ≤ MAX_RETRIES + 1 ∧
    retry_with_backoff
        (fun n => if n < 2 then Except.error "boom".toList
          else (Except.ok 42 : Except (List Char) ℕ))
        "Translation".toList
      = (Except.ok 42, 3, [1, 2]) :=
  ⟨(c6_retry_policy
      (fun n => if n < 2 then Except.error "boom".toList
        else (Except.ok 42 : Except (List Char) ℕ))
      "Translation".toList).1,
    (c6_retry_policy
      (fun n => if n < 2 then Except.error "boom".toList
        else (Except.ok 42 : Except (List Char) ℕ))
      "Translation".toList).2.2.2.2 "boom".toList "boom".toList 42
      (by decide) (by decide) (by decide)⟩

/-! ### `translate_segments`

`json.loads` is modelled only on the fragment exchanged here: a JSON array
of escape-free strings (the prompt demands exactly a JSON array of
translated strings).  Any other input parses to `none`
(`json.JSONDecodeError`). -/

/-- Scan a JSON string body after the opening quote: content up to the
closing quote and the remainder.  Escape sequences are out of the modelled
fragment. -/
def jsonStr : List Char → Option (List Char × List Char)
  | [] => none
  | c :: rest =>
    if c = '"' then some ([], rest)
    else if c = '\\' then none
    else
      match jsonStr rest with
      | some (s, r) => some (c :: s, r)
      | none => none

/-- Leading-whitespace skip used between JSON tokens. -/
def skipWs (l : List Char) : List Char := l.dropWhile pyIsSpace

/-- Elements of a non-empty JSON string array: `"s" ("," "s")* "]"`. -/
def jsonElems : ℕ → List Char → Option (List (List Char) × List Char)
  | 0, _ => none
  | fuel + 1, l =>
    match skipWs l with
    | '"' :: rest =>
      match jsonStr rest with
      | none => none
      | some (s, r) =>
        match skipWs r with
        | ',' :: r2 =>
          match jsonElems fuel r2 with
          | some (ss, r3) => some (s :: ss, r3)
          | none => none
        | ']' :: r2 => some ([s], r2)
        | _ => none
    | _ => none

/-- `json.loads` on the modelled fragment: an array of strings, possibly
empty, with surrounding whitespace. -/
def json_loads_strings (l : List Char) : Option (List (List Char)) :=
  match skipWs l with
  | '[' :: rest =>
    match skipWs rest with
    | ']' :: r2 => if skipWs r2 = [] then some [] else none
    | _ =>
      match jsonElems (rest.length + 1) rest with
      | some (ss, r) => if skipWs r = [] then some ss else none
      | none => none
  | _ => none

/-- The markdown-fence cleanup `translate_segments` applies to the raw
provider response before `json.loads`. -/
def cleanResponse (t : List Char) : List Char :=
  let t1 := pyStrip t
  let t2 :=
    if "```".toList <+: t1 then
      let t2a := (splitOnSub "```".toList t1).getD 1 []
      if "json".toList <+: t2a then t2a.drop 4 else t2a
    else t1
  pyStrip t2

/-- `AIService.translate_segments`: empty input short-circuits, mock mode
fabricates translations, otherwise the provider text is fetched through
`_retry_with_backoff`, cleaned, JSON-parsed and length-checked — the
count-mismatch `AIServiceError` is raised after the retry wrapper has
returned.  The result is paired with the provider call count and sleeps of
the wrapper. -/
def translate_segments (mock : Bool) (f : ℕ → Except (List Char) (List Char))
    (segments : List TranscriptionSegment)
    (source_language target_language : List Char) :
    Except (List Char) (List TranslationSegment) × ℕ × List ℕ :=
  if segments = [] then (Except.ok [], 0, [])
  else if mock then
    (Except.ok (segments.map (fun seg =>
      ⟨seg.id, seg.start, seg.«end», seg.text,
        "Translated: ".toList ++ seg.text,
        source_language, target_language⟩)), 0, [])
  else
    match retry_with_backoff f "Translation".toList with
    | (Except.error e, calls, sleeps) => (Except.error e, calls, sleeps)
    | (Except.ok response_text, calls, sleeps) =>
      match json_loads_strings (cleanResponse response_text) with
      | none =>
        (Except.error "Failed to parse translation response".toList,
          calls, sleeps)
      | some translated_texts =>
        if translated_texts.length ≠ segments.length then
          (Except.error ("Translation count mismatch: expected ".toList
            ++ natToChars segments.length ++ ", got ".toList
            ++ natToChars translated_texts.length), calls, sleeps)
        else
          (Except.ok ((segments.zip translated_texts).map (fun p =>
            ⟨p.1.id, p.1.start, p.1.«end», p.1.text, p.2,
              source_language, target_language⟩)), calls, sleeps)

/-- **C3 counterexample.**  A translation provider that keeps answering with
one string for two segments: `translate_segments` raises the uniform
service error with the count-mismatch message, but the provider is called
exactly once and nothing sleeps — the mismatch is detected after
`_retry_with_backoff` has already returned, so it is not retried. -/
theorem c3_counterexample :
    translate_segments false (fun _ => Except.ok "[\"a\"]".toList)
        [⟨1, 0, 1, "x".toList⟩, ⟨2, 1, 2, "y".toList⟩]
        "english".toList "hindi".toList
      = (Except.error "Translation count mismatch: expected 2, got 1".toList,
          1, []) ∧
    (1 : ℕ) ≠ MAX_RETRIES + 1 ∧ ([] : List ℕ) ≠ RETRY_DELAYS := by
  refine ⟨by decide, by decide, by decide⟩

/-- **C3 (amended).** When the provider response succeeds on the first
attempt but parses to a list whose length differs from the segment count,
`translate_segments` raises `AIServiceError` with the count-mismatch
message after exactly one provider call and no retry sleeps: the mismatch
check sits outside `_retry_with_backoff` and is not subject to the retry
policy. -/
theorem c3_count_mismatch_after_retry (f : ℕ → Except (List Char) (List Char))
    (segs : List TranscriptionSegment) (hne : segs ≠ [])
    (src tgt t : List Char) (ts : List (List Char))
    (h0 : f 0 = Except.ok t)
    (hp : json_loads_strings (cleanResponse t) = some ts)
    (hk : ts.length ≠ segs.length) :
    translate_segments false f segs src tgt
      = (Except.error ("Translation count mismatch: expected ".toList
          ++ natToChars segs.length ++ ", got ".toList
          ++ natToChars ts.length), 1, []) := by
  unfold translate_segments
  rw [if_neg hne]
  rw [if_neg (by simp)]
  rw [retry_ok0 f "Translation".toList t h0]
  dsimp only
  rw [hp]
  dsimp only
  rw [if_pos hk]

/-- **C3** witness: two strings for three segments, one provider call. -/
theorem c3_count_mismatch_after_retry_witness :
    translate_segments false (fun _ => Except.ok "[\"x\", \"y\"]".toList)
        [⟨1, 0, 1, "p".toList⟩, ⟨2, 1, 2, "q".toList⟩, ⟨3, 2, 3, "r".toList⟩]
        "english".toList "hindi".toList
      = (Except.error ("Translation count mismatch: expected ".toList
          ++ natToChars 3 ++ ", got ".toList ++ natToChars 2), 1, []) :=
  c3_count_mismatch_after_retry (fun _ => Except.ok "[\"x\", \"y\"]".toList)
    [⟨1, 0, 1, "p".toList⟩, ⟨2, 1, 2, "q".toList⟩, ⟨3, 2, 3, "r".toList⟩]
    (by decide) "english".toList "hindi".toList "[\"x\", \"y\"]".toList
    ["x".toList, "y".toList] rfl (by decide) (by decide)

/-! ## The media toolchain adapter

`_run_ffmpeg` and `_run_ffprobe` from `worker/utils/ffmpeg_helpers.py`.
The single `subprocess.run` call is modelled by its outcome; each function
is paired with the list of subprocess invocations it performs, recording
the command and the `timeout=` argument. -/

/-- Outcome of one `subprocess.run` call. -/
inductive ProcOutcome where
  | completed (returncode : ℤ) (stdout stderr : List Char)
  | timeout
  | notFound
deriving DecidableEq

/-- One recorded subprocess invocation: command and wall-clock timeout. -/
structure Invocation where
  args : List (List Char)
  timeoutSecs : ℕ
deriving DecidableEq

/-- `_run_ffmpeg`: one subprocess call with `timeout=300`; non-zero exit and
`TimeoutExpired`/`FileNotFoundError` become `FFmpegError`. -/
def run_ffmpeg (outcome : ProcOutcome) (args : List (List Char))
    (description : List Char) :
    Except (List Char) (ℤ × List Char × List Char) × List Invocation :=
  (match outcome with
    | ProcOutcome.completed rc out err =>
      if rc ≠ 0 then Except.error ("FFmpeg failed: ".toList ++ err)
      else Except.ok (rc, out, err)
    | ProcOutcome.timeout =>
      Except.error ("FFmpeg operation timed out: ".toList ++ description)
    | ProcOutcome.notFound =>
      Except.error "FFmpeg is not installed or not in PATH".toList,
    [⟨args, 300⟩])

/-- `_run_ffprobe`: one subprocess call with `timeout=60`; returns stdout on
success. -/
def run_ffprobe (outcome : ProcOutcome) (args : List (List Char))
    (description : List Char) : Except (List Char) (List Char) × List Invocation :=
  (match outcome with
    | ProcOutcome.completed rc out err =>
      if rc ≠ 0 then Except.error ("FFprobe failed: ".toList ++ err)
      else Except.ok out
    | ProcOutcome.timeout =>
      Except.error ("FFprobe operation timed out: ".toList ++ description)
    | ProcOutcome.notFound =>
      Except.error "FFprobe is not installed or not in PATH".toList,
    [⟨args, 60⟩])

/-- **C7.** Each media toolchain operation performs exactly one external
tool invocation whatever the outcome — zero retries by the adapter — with a
hard wall-clock timeout of 300s for `ffmpeg` transforms and 60s for
`ffprobe` inspections; a timed-out invocation raises `FFmpegError` whose
message contains `"timed out"`. -/
theorem c7_single_invocation_timeout (outcome : ProcOutcome)
    (args : List (List Char)) (description : List Char) :
    ((run_ffmpeg outcome args description).2 = [⟨args, 300⟩] ∧
      (run_ffprobe outcome args description).2 = [⟨args, 60⟩]) ∧
    (outcome = ProcOutcome.timeout →
      (run_ffmpeg outcome args description).1
          = Except.error ("FFmpeg operation timed out: ".toList ++ description) ∧
        "timed out".toList
          <:+: ("FFmpeg operation timed out: ".toList ++ description) ∧
      (run_ffprobe outcome args description).1
          = Except.error ("FFprobe operation timed out: ".toList ++ description) ∧
        "timed out".toList
          <:+: ("FFprobe operation timed out: ".toList ++ description)) := by
  refine ⟨⟨rfl, rfl⟩, ?_⟩
  rintro rfl
  refine ⟨rfl, ?_, rfl, ?_⟩
  · refine ⟨"FFmpeg operation ".toList, ": ".toList ++ description, ?_⟩
    rw [show "FFmpeg operation timed out: ".toList
      = "FFmpeg operation ".toList ++ "timed out".toList ++ ": ".toList from rfl]
    simp [List.append_assoc]
  · refine ⟨"FFprobe operation ".toList, ": ".toList ++ description, ?_⟩
    rw [show "FFprobe operation timed out: ".toList
      = "FFprobe operation ".toList ++ "timed out".toList ++ ": ".toList from rfl]
    simp [List.append_assoc]

/-- **C7** witness: a timed-out probe of a concrete command. -/
theorem c7_single_invocation_timeout_witness :
    ((run_ffmpeg ProcOutcome.timeout ["ffmpeg".toList] "Mux".toList).2
        = [⟨["ffmpeg".toList], 300⟩] ∧
      (run_ffprobe ProcOutcome.timeout ["ffmpeg".toList] "Mux".toList).2
        = [⟨["ffmpeg".toList], 60⟩]) ∧
    ((run_ffmpeg ProcOutcome.timeout ["ffmpeg".toList] "Mux".toList).1
        = Except.error ("FFmpeg operation timed out: ".toList ++ "Mux".toList) ∧
      "timed out".toList
        <:+: ("FFmpeg operation timed out: ".toList ++ "Mux".toList) ∧
      (run_ffprobe ProcOutcome.timeout ["ffmpeg".toList] "Mux".toList).1
        = Except.error ("FFprobe operation timed out: ".toList ++ "Mux".toList) ∧
      "timed out".toList
        <:+: ("FFprobe operation timed out: ".toList ++ "Mux".toList)) :=
  ⟨(c7_single_invocation_timeout ProcOutcome.timeout
      ["ffmpeg".toList] "Mux".toList).1,
    (c7_single_invocation_timeout ProcOutcome.timeout
      ["ffmpeg".toList] "Mux".toList).2 rfl⟩

/-! ## The job pipeline

`JobProcessor.process_job` from `worker/tasks/process_job.py`.  Each
pipeline step's externally determined outcome is an oracle field of
`PipelineEnv`; the run is summarised by its result, the ordered list of
job-store writes, and the ordered list of step invocations. -/

/-- The Python exception classes distinguished by the handlers. -/
inductive PyExc where
  | ffmpeg (msg : List Char)
  | ai (msg : List Char)
  | subtitle (msg : List Char)
  | jobProcessing (msg : List Char)
  | other (msg : List Char)
deriving DecidableEq

/-- `JobStatus` enumeration. -/
inductive JobStatus where
  | created | uploading | queued | processing | transcribing | translating
  | synthesizing | processing_video | done | failed
deriving DecidableEq

/-- One write to the job store. -/
inductive JobWrite where
  | statusUpdate (status : JobStatus) (progress : ℕ)
  | durationUpdate (duration : ℚ)
  | failWrite (error_message : List Char)
  | completeWrite
deriving DecidableEq

/-- One pipeline step invocation. -/
inductive CallEvent where
  | getJob | download | probeDuration | extractAudio | transcribe
  | translate | synthesize | createDubbedAudio | saveSrt | mux | upload
deriving DecidableEq

/-- Oracle outcomes of the externally effectful steps.  `download` errors
carry the message of the `JobProcessingError` already raised by
`_download_video`; the other fields carry the exception of the failing
library call. -/
structure PipelineEnv where
  jobFound : Bool
  download : Except (List Char) Unit
  probeDuration : Except PyExc ℚ
  extractAudio : Except PyExc Unit
  transcribe : Except PyExc (List TranscriptionSegment)
  translate : Except PyExc (List TranslationSegment)
  synthesize : Except PyExc (List SynthesizedSegment)
  concatAudio : Except PyExc Unit
  saveSrtSource : Except PyExc Unit
  saveSrtTarget : Except PyExc Unit
  muxAudio : Except PyExc Unit
  upload1 : Except PyExc Unit
  upload2 : Except PyExc Unit
  upload3 : Except PyExc Unit

/-- The duration-validation error message. -/
def tooLongMsg (d maxDur : ℚ) : List Char :=
  "Video too long: ".toList ++ ratToChars d ++ "s exceeds maximum of ".toList
    ++ ratToChars maxDur ++ "s. Please upload a video that is ".toList
    ++ ratToChars maxDur ++ " seconds or shorter.".toList

/-- The `try:` body of `process_job` (steps 1–11), recording job-store
writes and step invocations in program order. -/
def processJobTry (env : PipelineEnv) (maxDur : ℚ) :
    Except PyExc Unit × List JobWrite × List CallEvent :=
  let w1 := [JobWrite.statusUpdate JobStatus.processing 0]
  let c1 := [CallEvent.download]
  match env.download with
  | Except.error e => (Except.error (PyExc.jobProcessing e), w1, c1)
  | Except.ok _ =>
    let c2 := c1 ++ [CallEvent.probeDuration]
    match env.probeDuration with
    | Except.error e => (Except.error e, w1, c2)
    | Except.ok d =>
      if maxDur < d then
        (Except.error (PyExc.jobProcessing (tooLongMsg d maxDur)), w1, c2)
      else
        let w2 := w1 ++ [JobWrite.durationUpdate d,
          JobWrite.statusUpdate JobStatus.transcribing 5]
        let c3 := c2 ++ [CallEvent.extractAudio]
        match env.extractAudio with
        | Except.error e => (Except.error e, w2, c3)
        | Except.ok _ =>
          let w3 := w2 ++ [JobWrite.statusUpdate JobStatus.transcribing 10]
          let c4 := c3 ++ [CallEvent.transcribe]
          match env.transcribe with
          | Except.error e => (Except.error e, w3, c4)
          | Except.ok tsegs =>
            if tsegs = [] then
              (Except.error (PyExc.jobProcessing
                "No speech detected in video. Please ensure the video contains audible speech.".toList),
                w3, c4)
            else
              let w4 := w3 ++ [JobWrite.statusUpdate JobStatus.translating 25]
              let c5 := c4 ++ [CallEvent.translate]
              match env.translate with
              | Except.error e => (Except.error e, w4, c5)
              | Except.ok _ =>
                let w5 := w4 ++ [JobWrite.statusUpdate JobStatus.synthesizing 50]
                let c6 := c5 ++ [CallEvent.synthesize]
                match env.synthesize with
                | Except.error e => (Except.error e, w5, c6)
                | Except.ok ssegs =>
                  let w6 := w5 ++ [JobWrite.statusUpdate JobStatus.processing_video 70]
                  let c7 := c6 ++ [CallEvent.createDubbedAudio]
                  if ssegs = [] then
                    (Except.error (PyExc.jobProcessing
                      "No audio segments to concatenate".toList), w6, c7)
                  else
                    match env.concatAudio with
                    | Except.error e => (Except.error e, w6, c7)
                    | Except.ok _ =>
                      let w7 := w6 ++ [JobWrite.statusUpdate JobStatus.processing_video 80]
                      let c8 := c7 ++ [CallEvent.saveSrt]
                      match env.saveSrtSource with
                      | Except.error e => (Except.error e, w7, c8)
                      | Except.ok _ =>
                        let c9 := c8 ++ [CallEvent.saveSrt]
                        match env.saveSrtTarget with
                        | Except.error e => (Except.error e, w7, c9)
                        | Except.ok _ =>
                          let w8 := w7 ++ [JobWrite.statusUpdate JobStatus.processing_video 85]
                          let c10 := c9 ++ [CallEvent.mux]
                          match env.muxAudio with
                          | Except.error e => (Except.error e, w8, c10)
                          | Except.ok _ =>
                            let w9 := w8 ++ [JobWrite.statusUpdate JobStatus.processing_video 90]
                            let c11 := c10 ++ [CallEvent.upload]
                            match env.upload1 with
                            | Except.error e => (Except.error e, w9, c11)
                            | Except.ok _ =>
                              let c12 := c11 ++ [CallEvent.upload]
                              match env.upload2 with
                              | Except.error e => (Except.error e, w9, c12)
                              | Except.ok _ =>
                                let c13 := c12 ++ [CallEvent.upload]
                                match env.upload3 with
                                | Except.error e => (Except.error e, w9, c13)
                                | Except.ok _ =>
                                  (Except.ok (),
                                    w9 ++ [JobWrite.statusUpdate JobStatus.processing_video 95,
                                      JobWrite.completeWrite,
                                      JobWrite.statusUpdate JobStatus.done 100],
                                    c13)

/-- `process_job` with its exception handlers: `FFmpegError`,
`AIServiceError` and `SubtitleError` are failed into the job store and
re-raised wrapped; `JobProcessingError` is re-raised without wrapping (and
without a `fail_job` write); any other exception is failed and wrapped. -/
def processJob (env : PipelineEnv) (maxDur : ℚ) :
    Except PyExc Unit × List JobWrite × List CallEvent :=
  match env.jobFound with
  | false => (Except.error (PyExc.jobProcessing "Job not found".toList),
      [], [CallEvent.getJob])
  | true =>
    match processJobTry env maxDur with
    | (Except.ok _, ws, cs) => (Except.ok (), ws, CallEvent.getJob :: cs)
    | (Except.error (PyExc.ffmpeg m), ws, cs) =>
      (Except.error (PyExc.jobProcessing ("Video processing error: ".toList ++ m)),
        ws ++ [JobWrite.failWrite ("Video processing error: ".toList ++ m)],
        CallEvent.getJob :: cs)
    | (Except.error (PyExc.ai m), ws, cs) =>
      (Except.error (PyExc.jobProcessing ("AI service error: ".toList ++ m)),
        ws ++ [JobWrite.failWrite ("AI service error: ".toList ++ m)],
        CallEvent.getJob :: cs)
    | (Except.error (PyExc.subtitle m), ws, cs) =>
      (Except.error (PyExc.jobProcessing ("Subtitle generation error: ".toList ++ m)),
        ws ++ [JobWrite.failWrite ("Subtitle generation error: ".toList ++ m)],
        CallEvent.getJob :: cs)
    | (Except.error (PyExc.jobProcessing m), ws, cs) =>
      (Except.error (PyExc.jobProcessing m), ws, CallEvent.getJob :: cs)
    | (Except.error (PyExc.other m), ws, cs) =>
      (Except.error (PyExc.jobProcessing ("Unexpected error: ".toList ++ m)),
        ws ++ [JobWrite.failWrite ("Unexpected error: ".toList ++ m)],
        CallEvent.getJob :: cs)

/-- Progress values of the status/progress writes, in write order. -/
def progressValues (ws : List JobWrite) : List ℕ :=
  ws.filterMap (fun w => match w with
    | JobWrite.statusUpdate _ p => some p
    | _ => none)

/-- **C1 (code bug).** When the probed duration exceeds the configured
maximum, `process_job` raises `JobProcessingError` before transcription,
translation or synthesis are invoked — but the `except JobProcessingError:
raise` handler re-raises *without* calling `fail_job`, so no failure (or
any other) write reaches the job store: the job is never transitioned to
`failed`, contradicting both the specification and the worker loop's
assumption that the processor has already marked it failed. -/
theorem c1_duration_validation_no_fail (env : PipelineEnv) (maxDur d : ℚ)
    (hfound : env.jobFound = true) (hdl : env.download = Except.ok ())
    (hdur : env.probeDuration = Except.ok d) (hgt : maxDur < d) :
    processJob env maxDur
      = (Except.error (PyExc.jobProcessing (tooLongMsg d maxDur)),
        [JobWrite.statusUpdate JobStatus.processing 0],
        [CallEvent.getJob, CallEvent.download, CallEvent.probeDuration]) ∧
    (∀ m, JobWrite.failWrite m ∉ (processJob env maxDur).2.1) ∧
    CallEvent.transcribe ∉ (processJob env maxDur).2.2 ∧
    CallEvent.translate ∉ (processJob env maxDur).2.2 ∧
    CallEvent.synthesize ∉ (processJob env maxDur).2.2 := by
  have htry : processJobTry env maxDur
      = (Except.error (PyExc.jobProcessing (tooLongMsg d maxDur)),
        [JobWrite.statusUpdate JobStatus.processing 0],
        [CallEvent.download, CallEvent.probeDuration]) := by
    unfold processJobTry
    rw [hdl, hdur]
    dsimp only
    rw [if_pos hgt]
    rfl
  have hmain : processJob env maxDur
      = (Except.error (PyExc.jobProcessing (tooLongMsg d maxDur)),
        [JobWrite.statusUpdate JobStatus.processing 0],
        [CallEvent.getJob, CallEvent.download, CallEvent.probeDuration]) := by
    unfold processJob
    rw [hfound, htry]
  refine ⟨hmain, ?_, ?_, ?_, ?_⟩
  · intro m
    rw [hmain]
    simp
  · rw [hmain]; simp
  · rw [hmain]; simp
  · rw [hmain]; simp

/-- **C1** witness: a 61-second video against the default 60s maximum. -/
theorem c1_duration_validation_no_fail_witness :
    processJob
        ⟨true, Except.ok (), Except.ok 61, Except.ok (), Except.ok [],
          Except.ok [], Except.ok [], Except.ok (), Except.ok (),
          Except.ok (), Except.ok (), Except.ok (), Except.ok (),
          Except.ok ()⟩ 60
      = (Except.error (PyExc.jobProcessing (tooLongMsg 61 60)),
        [JobWrite.statusUpdate JobStatus.processing 0],
        [CallEvent.getJob, CallEvent.download, CallEvent.probeDuration]) ∧
    (∀ m, JobWrite.failWrite m
      ∉ (processJob
          ⟨true, Except.ok (), Except.ok 61, Except.ok (), Except.ok [],
            Except.ok [], Except.ok [], Except.ok (), Except.ok (),
            Except.ok (), Except.ok (), Except.ok (), Except.ok (),
            Except.ok ()⟩ 60).2.1) ∧
    CallEvent.transcribe
      ∉ (processJob
          ⟨true, Except.ok (), Except.ok 61, Except.ok (), Except.ok [],
            Except.ok [], Except.ok [], Except.ok (), Except.ok (),
            Except.ok (), Except.ok (), Except.ok (), Except.ok (),
            Except.ok ()⟩ 60).2.2 ∧
    CallEvent.translate
      ∉ (processJob
          ⟨true, Except.ok (), Except.ok 61, Except.ok (), Except.ok [],
            Except.ok [], Except.ok [], Except.ok (), Except.ok (),
            Except.ok (), Except.ok (), Except.ok (), Except.ok (),
            Except.ok ()⟩ 60).2.2 ∧
    CallEvent.synthesize
      ∉ (processJob
          ⟨true, Except.ok (), Except.ok 61, Except.ok (), Except.ok [],
            Except.ok [], Except.ok [], Except.ok (), Except.ok (),
            Except.ok (), Except.ok (), Except.ok (), Except.ok (),
            Except.ok ()⟩ 60).2.2 :=
  c1_duration_validation_no_fail
    ⟨true, Except.ok (), Except.ok 61, Except.ok (), Except.ok [],
      Except.ok [], Except.ok [], Except.ok (), Except.ok (),
      Except.ok (), Except.ok (), Except.ok (), Except.ok (),
      Except.ok ()⟩
    60 61 rfl rfl rfl (by norm_num)

/-- **C2.** Whenever the pipeline body raises `FFmpegError`,
`AIServiceError` or `SubtitleError` for an existing job, `process_job`
appends a `fail_job` write carrying the descriptive error message to the
job-store trace and propagates the wrapped `JobProcessingError`: the
failure write is part of the run's trace before the error reaches the
worker loop. -/
theorem c2_fail_write_before_propagation (env : PipelineEnv) (maxDur : ℚ)
    (m : List Char) (hfound : env.jobFound = true) :
    ((processJobTry env maxDur).1 = Except.error (PyExc.ffmpeg m) →
      processJob env maxDur
        = (Except.error (PyExc.jobProcessing
              ("Video processing error: ".toList ++ m)),
          (processJobTry env maxDur).2.1
            ++ [JobWrite.failWrite ("Video processing error: ".toList ++ m)],
          CallEvent.getJob :: (processJobTry env maxDur).2.2)) ∧
    ((processJobTry env maxDur).1 = Except.error (PyExc.ai m) →
      processJob env maxDur
        = (Except.error (PyExc.jobProcessing ("AI service error: ".toList ++ m)),
          (processJobTry env maxDur).2.1
            ++ [JobWrite.failWrite ("AI service error: ".toList ++ m)],
          CallEvent.getJob :: (processJobTry env maxDur).2.2)) ∧
    ((processJobTry env maxDur).1 = Except.error (PyExc.subtitle m) →
      processJob env maxDur
        = (Except.error (PyExc.jobProcessing
              ("Subtitle generation error: ".toList ++ m)),
          (processJobTry env maxDur).2.1
            ++ [JobWrite.failWrite ("Subtitle generation error: ".toList ++ m)],
          CallEvent.getJob :: (processJobTry env maxDur).2.2)) := by
  refine ⟨?_, ?_, ?_⟩ <;> intro h <;>
    ·  have hx : processJobTry env maxDur
          = ((processJobTry env maxDur).1, (processJobTry env maxDur).2.1,
            (processJobTry env maxDur).2.2) := rfl
       unfold processJob
       rw [hfound]
       rw [hx, h]

unseal Rat.mul Rat.inv Rat.add Rat.sub in
/-- **C2** witness: audio extraction fails with `FFmpegError`; the run's
trace ends with the `fail_job` write and the wrapped error is returned. -/
theorem c2_fail_write_before_propagation_witness :
    processJob
        ⟨true, Except.ok (), Except.ok 30,
          Except.error (PyExc.ffmpeg "FFmpeg failed: boom".toList),
          Except.ok [], Except.ok [], Except.ok [], Except.ok (),
          Except.ok (), Except.ok (), Except.ok (), Except.ok (),
          Except.ok (), Except.ok ()⟩ 60
      = (Except.error (PyExc.jobProcessing
            ("Video processing error: ".toList ++ "FFmpeg failed: boom".toList)),
        (processJobTry
            ⟨true, Except.ok (), Except.ok 30,
              Except.error (PyExc.ffmpeg "FFmpeg failed: boom".toList),
              Except.ok [], Except.ok [], Except.ok [], Except.ok (),
              Except.ok (), Except.ok (), Except.ok (), Except.ok (),
              Except.ok (), Except.ok ()⟩ 60).2.1
          ++ [JobWrite.failWrite
              ("Video processing error: ".toList ++ "FFmpeg failed: boom".toList)],
        CallEvent.getJob
          :: (processJobTry
              ⟨true, Except.ok (), Except.ok 30,
                Except.error (PyExc.ffmpeg "FFmpeg failed: boom".toList),
                Except.ok [], Except.ok [], Except.ok [], Except.ok (),
                Except.ok (), Except.ok (), Except.ok (), Except.ok (),
                Except.ok (), Except.ok ()⟩ 60).2.2) :=
  (c2_fail_write_before_propagation
    ⟨true, Except.ok (), Except.ok 30,
      Except.error (PyExc.ffmpeg "FFmpeg failed: boom".toList),
      Except.ok [], Except.ok [], Except.ok [], Except.ok (),
      Except.ok (), Except.ok (), Except.ok (), Except.ok (),
      Except.ok (), Except.ok ()⟩ 60
    "FFmpeg failed: boom".toList rfl).1 (by decide)

/-- **C8.** Within one run of `process_job`, the progress values written to
the job store are monotonically non-decreasing; every run that writes at
all starts at progress 0, and a successful run writes exactly the
checkpoint sequence 0, 5, 10, 25, 50, 70, 80, 85, 90, 95, 100. -/
theorem c8_progress_monotone (env : PipelineEnv) (maxDur : ℚ) :
    List.Chain' (fun a b => a ≤ b)
      (progressValues (processJob env maxDur).2.1) ∧
    ((processJob env maxDur).2.1 ≠ [] →
      (progressValues (processJob env maxDur).2.1).head? = some 0) ∧
    ((processJob env maxDur).1 = Except.ok () →
      progressValues (processJob env maxDur).2.1
        = [0, 5, 10, 25, 50, 70, 80, 85, 90, 95, 100]) := by
  cases hjf : env.jobFound with
  | false => simp [processJob, hjf, progressValues]
  | true =>
    cases hdl : env.download with
    | error e =>
      simp [processJob, processJobTry, hjf, hdl, progressValues]
    | ok u =>
      cases hpd : env.probeDuration with
      | error e =>
        cases e <;>
          simp [processJob, processJobTry, hjf, hdl, hpd, progressValues]
      | ok d =>
        by_cases hgt : maxDur < d
        · simp [processJob, processJobTry, hjf, hdl, hpd, hgt, progressValues]
        · cases hea : env.extractAudio with
          | error e =>
            cases e <;>
              simp [processJob, processJobTry, hjf, hdl, hpd, hgt, hea,
                progressValues, List.chain'_cons]
          | ok u2 =>
            cases htr : env.transcribe with
            | error e =>
              cases e <;>
                simp [processJob, processJobTry, hjf, hdl, hpd, hgt, hea, htr,
                  progressValues, List.chain'_cons]
            | ok tsegs =>
              by_cases hts : tsegs = []
              · simp [processJob, processJobTry, hjf, hdl, hpd, hgt, hea, htr,
                  hts, progressValues, List.chain'_cons]
              · cases htl : env.translate with
                | error e =>
                  cases e <;>
                    simp [processJob, processJobTry, hjf, hdl, hpd, hgt, hea,
                      htr, hts, htl, progressValues, List.chain'_cons]
                | ok x2 =>
                  cases hsy : env.synthesize with
                  | error e =>
                    cases e <;>
                      simp [processJob, processJobTry, hjf, hdl, hpd, hgt, hea,
                        htr, hts, htl, hsy, progressValues, List.chain'_cons]
                  | ok ssegs =>
                    by_cases hss : ssegs = []
                    · simp [processJob, processJobTry, hjf, hdl, hpd, hgt, hea,
                        htr, hts, htl, hsy, hss, progressValues,
                        List.chain'_cons]
                    · cases hca : env.concatAudio with
                      | error e =>
                        cases e <;>
                          simp [processJob, processJobTry, hjf, hdl, hpd, hgt,
                            hea, htr, hts, htl, hsy, hss, hca, progressValues,
                            List.chain'_cons]
                      | ok u3 =>
                        cases hs1 : env.saveSrtSource with
                        | error e =>
                          cases e <;>
                            simp [processJob, processJobTry, hjf, hdl, hpd,
                              hgt, hea, htr, hts, htl, hsy, hss, hca, hs1,
                              progressValues, List.chain'_cons]
                        | ok u4 =>
                          cases hs2 : env.saveSrtTarget with
                          | error e =>
                            cases e <;>
                              simp [processJob, processJobTry, hjf, hdl, hpd,
                                hgt, hea, htr, hts, htl, hsy, hss, hca, hs1,
                                hs2, progressValues, List.chain'_cons]
                          | ok u5 =>
                            cases hmx : env.muxAudio with
                            | error e =>
                              cases e <;>
                                simp [processJob, processJobTry, hjf, hdl,
                                  hpd, hgt, hea, htr, hts, htl, hsy, hss, hca,
                                  hs1, hs2, hmx, progressValues,
                                  List.chain'_cons]
                            | ok u6 =>
                              cases hu1 : env.upload1 with
                              | error e =>
                                cases e <;>
                                  simp [processJob, processJobTry, hjf, hdl,
                                    hpd, hgt, hea, htr, hts, htl, hsy, hss,
                                    hca, hs1, hs2, hmx, hu1, progressValues,
                                    List.chain'_cons]
                              | ok u7 =>
                                cases hu2 : env.upload2 with
                                | error e =>
                                  cases e <;>
                                    simp [processJob, processJobTry, hjf, hdl,
                                      hpd, hgt, hea, htr, hts, htl, hsy, hss,
                                      hca, hs1, hs2, hmx, hu1, hu2,
                                      progressValues, List.chain'_cons]
                                | ok u8 =>
                                  cases hu3 : env.upload3 with
                                  | error e =>
                                    cases e <;>
                                      simp [processJob, processJobTry, hjf,
                                        hdl, hpd, hgt, hea, htr, hts, htl,
                                        hsy, hss, hca, hs1, hs2, hmx, hu1,
                                        hu2, hu3, progressValues,
                                        List.chain'_cons]
                                  | ok u9 =>
                                    simp [processJob, processJobTry, hjf, hdl,
                                      hpd, hgt, hea, htr, hts, htl, hsy, hss,
                                      hca, hs1, hs2, hmx, hu1, hu2, hu3,
                                      progressValues, List.chain'_cons]

unseal Rat.mul Rat.inv Rat.add Rat.sub in
/-- **C8** witness: a fully successful run writes the checkpoint sequence. -/
theorem c8_progress_monotone_witness :
    List.Chain' (fun a b => a ≤ b)
      (progressValues (processJob
        ⟨true, Except.ok (), Except.ok 30, Except.ok (),
          Except.ok [⟨1, 0, 1, "h".toList⟩], Except.ok [],
          Except.ok [⟨1, 0, 1, "h".toList, "p".toList, 2⟩], Except.ok (),
          Except.ok (), Except.ok (), Except.ok (), Except.ok (),
          Except.ok (), Except.ok ()⟩ 60).2.1) ∧
    (progressValues (processJob
        ⟨true, Except.ok (), Except.ok 30, Except.ok (),
          Except.ok [⟨1, 0, 1, "h".toList⟩], Except.ok [],
          Except.ok [⟨1, 0, 1, "h".toList, "p".toList, 2⟩], Except.ok (),
          Except.ok (), Except.ok (), Except.ok (), Except.ok (),
          Except.ok (), Except.ok ()⟩ 60).2.1).head? = some 0 ∧
    progressValues (processJob
        ⟨true, Except.ok (), Except.ok 30, Except.ok (),
          Except.ok [⟨1, 0, 1, "h".toList⟩], Except.ok [],
          Except.ok [⟨1, 0, 1, "h".toList, "p".toList, 2⟩], Except.ok (),
          Except.ok (), Except.ok (), Except.ok (), Except.ok (),
          Except.ok (), Except.ok ()⟩ 60).2.1
      = [0, 5, 10, 25, 50, 70, 80, 85, 90, 95, 100] :=
  ⟨(c8_progress_monotone
      ⟨true, Except.ok (), Except.ok 30, Except.ok (),
        Except.ok [⟨1, 0, 1, "h".toList⟩], Except.ok [],
        Except.ok [⟨1, 0, 1, "h".toList, "p".toList, 2⟩], Except.ok (),
        Except.ok (), Except.ok (), Except.ok (), Except.ok (),
        Except.ok (), Except.ok ()⟩ 60).1,
    (c8_progress_monotone
      ⟨true, Except.ok (), Except.ok 30, Except.ok (),
        Except.ok [⟨1, 0, 1, "h".toList⟩], Except.ok [],
        Except.ok [⟨1, 0, 1, "h".toList, "p".toList, 2⟩], Except.ok (),
        Except.ok (), Except.ok (), Except.ok (), Except.ok (),
        Except.ok (), Except.ok ()⟩ 60).2.1 (by decide),
    (c8_progress_monotone
      ⟨true, Except.ok (), Except.ok 30, Except.ok (),
        Except.ok [⟨1, 0, 1, "h".toList⟩], Except.ok [],
        Except.ok [⟨1, 0, 1, "h".toList, "p".toList, 2⟩], Except.ok (),
        Except.ok (), Except.ok (), Except.ok (), Except.ok (),
        Except.ok (), Except.ok ()⟩ 60).2.2 (by decide)⟩

end Dubbing
